import Mathlib

/-!
Verification of the rdopkg spec-file engine (`rdopkg/utils/specfile.py`).

This file gives a shallow embedding of the pure text-editing core of the
`Spec` class: the release algebra (`version_parts`, `release_parts`,
`bump_release`), the document operations (`get_tag`, `get_magic_comment`,
`set_magic_comment`, `wipe_patches`, `set_new_patches`, `save`,
`get_subpackages`, `guess_main_python_subpackage`, `find_last_dependency`,
`insert_dependency_after`, `add_python_requires`) and proves or refutes the
specification claims about them.

Python `re` patterns are concrete in the source, so each one is embedded as
an executable character-level matcher that reproduces the behaviour of that
particular pattern (greediness, backtracking where it matters, multiline
anchors).  Python integer indexing (negative indices, IndexError) and
`int()` parsing are embedded explicitly.  Machine-level effects (file I/O,
the `rpm` oracle, `print`) are out of scope: operations are modelled as
functions from buffer text to buffer text plus an optional typed error,
matching the fact that a raised exception leaves `self._txt` at whatever
value it had when the exception was raised.
-/

/-- Typed errors of the engine, mirroring `rdopkg.exception` plus the
untyped Python runtime errors that the source can raise (IndexError,
ValueError, TypeError).  `parseError` stands for `SpecFileParseError`. -/
inductive SpecErr where
  | parseError (detail : String)
  | invalidReleaseBumpIndex (what : String)
  | couldNotAddPythonRequires
  | invalidAction
  | pyIndexError
  | pyValueError
  | pyTypeError
  | pyAttributeError
  deriving Repr, DecidableEq

/-- Python `l[i]` for lists: negative indices count from the end,
out-of-range gives `none` (IndexError at the call site). -/
def pyListGetI {α : Type} (l : List α) (i : Int) : Option α :=
  if i < 0 then
    let j : Int := i + l.length
    if j < 0 then none else l.get? j.toNat
  else l.get? i.toNat

/-- Python `l[i] = a` for lists (only used at indices where lookup
succeeded). -/
def pyListSetI {α : Type} (l : List α) (i : Int) (a : α) : List α :=
  if i < 0 then l.set (i + l.length).toNat a else l.set i.toNat a

/-- Python `l.insert(i, a)`: negative indices count from the end and the
position is clamped into range. -/
def pyListInsertI {α : Type} (l : List α) (i : Int) (a : α) : List α :=
  let n : Int := l.length
  let j : Int := if i < 0 then max (i + n) 0 else min i n
  l.take j.toNat ++ a :: l.drop j.toNat

/-- Fuel-driven decimal rendering; the fuel `n + 1` supplied by `natDigits`
is always enough since the argument at least halves each step. -/
def natDigitsF : Nat → Nat → List Char
  | 0, _ => []
  | fuel + 1, n =>
    if n < 10 then [Char.ofNat (48 + n)]
    else natDigitsF fuel (n / 10) ++ [Char.ofNat (48 + n % 10)]

/-- Decimal digits of a natural number, most significant first. -/
def natDigits (n : Nat) : List Char := natDigitsF (n + 1) n

/-- Python `str` of an integer. -/
def intToDecStr (i : Int) : String :=
  if i < 0 then String.mk ('-' :: natDigits (-i).toNat)
  else String.mk (natDigits i.toNat)

/-- Value of a list of decimal digit characters. -/
def digitsToNat (l : List Char) : Nat :=
  l.foldl (fun a c => a * 10 + (c.toNat - 48)) 0

/-- Python `int(s)` restricted to the forms that occur here: optional
surrounding whitespace, optional sign, a nonempty run of decimal digits.
Anything else is a ValueError (`none`). -/
def pyIntL (l0 : List Char) : Option Int :=
  let l := (((l0.dropWhile Char.isWhitespace).reverse.dropWhile
    Char.isWhitespace)).reverse
  match l with
  | [] => none
  | '-' :: ds =>
    if ds ≠ [] ∧ ds.all Char.isDigit then some (-(digitsToNat ds : Int)) else none
  | '+' :: ds =>
    if ds ≠ [] ∧ ds.all Char.isDigit then some (digitsToNat ds) else none
  | ds =>
    if ds.all Char.isDigit then some (digitsToNat ds) else none

/-- Split a character list at every occurrence of `sep` (Python
`str.split(sep)` for a one-character separator): always returns one more
part than there are separators. -/
def splitChar (sep : Char) : List Char → List (List Char)
  | [] => [[]]
  | c :: rest =>
    match splitChar sep rest with
    | [] => [[]]
    | h :: t => if c = sep then [] :: h :: t else (c :: h) :: t

/-- Join parts with a one-character separator (Python `sep.join(parts)`). -/
def joinChar (sep : Char) : List (List Char) → List Char
  | [] => []
  | [p] => p
  | p :: ps => p ++ sep :: joinChar sep ps

/-- Fuel-driven greedy parse of `(?:\.\d+)*`: returns the list of digit
groups consumed (one entry per `\.\d+` repetition, without the dots) and
the unconsumed remainder.  Each iteration consumes at least two characters,
so fuel `l.length` (supplied by `numTail`) never runs out. -/
def numTailF : Nat → List Char → List (List Char) × List Char
  | 0, l => ([], l)
  | _ + 1, [] => ([], [])
  | fuel + 1, c :: rest =>
    if c = '.' then
      let d := rest.takeWhile Char.isDigit
      if d.isEmpty then ([], c :: rest)
      else
        let p := numTailF fuel (rest.dropWhile Char.isDigit)
        (d :: p.1, p.2)
    else ([], c :: rest)

/-- Greedy parse of `(?:\.\d+)*`. -/
def numTail (l : List Char) : List (List Char) × List Char :=
  numTailF l.length l

/-- Dot-joined rendering of digit groups. -/
def joinDots (gs : List (List Char)) : List Char :=
  joinChar '.' gs

/-- Embedding of `re.match(r'(\d+(?:\.\d+)*)([.%]|$)(.*)', version)`:
returns `(group1, group2 ++ group3)` on success.  The greedy numeric run
backtracks by giving up its last `\.\d+` group when the following character
is not `.`, `%` or an end-of-string position (`$` also matches just before
a final newline; `group3` is `.*`, which stops at a newline). -/
def versionPartsL (l : List Char) : Option (List Char × List Char) :=
  let d := l.takeWhile Char.isDigit
  if d.isEmpty then none
  else
    let p := numTail (l.dropWhile Char.isDigit)
    match p.2 with
    | [] => some (joinDots (d :: p.1), [])
    | ['\n'] => some (joinDots (d :: p.1), [])
    | c :: cs =>
      if c = '.' ∨ c = '%' then
        some (joinDots (d :: p.1), c :: cs.takeWhile (· ≠ '\n'))
      else
        match p.1.getLast? with
        | none => none
        | some g =>
          some (joinDots (d :: p.1.dropLast),
            '.' :: (g ++ (c :: cs).takeWhile (· ≠ '\n')))

/-- Embedding of `specfile.version_parts`: split a version string into the
numeric `X.Y.Z` part and the rest. -/
def version_parts (version : String) : String × String :=
  match versionPartsL version.data with
  | some (n, t) => (String.mk n, String.mk t)
  | none => (version, "")

/-- The literal `%{?milestone}` (written with escaped braces). -/
def msLit : List Char := "%\x7b?milestone\x7d".data

/-- Whether `$` (no-MULTILINE) can terminate a match whose `(.*)` tail
starts here: true iff the remainder contains no newline, except possibly a
single final one. -/
def dollarOk (r : List Char) : Bool :=
  let post := r.dropWhile (· ≠ '\n')
  post = [] ∨ post = ['\n']

/-- One attempt of the alternation `(?:%\{\?milestone\}|[^%.]+)(.*)$` at the
head of `l` (with `dot` the optionally consumed leading dot): returns
`(group1, group2)` on success. -/
def msAttempt (dot : List Char) (l : List Char) :
    Option (List Char × List Char) :=
  if msLit.isPrefixOf l then
    let r := l.drop msLit.length
    if dollarOk r then some (dot ++ msLit, r.takeWhile (· ≠ '\n')) else none
  else
    let run := l.takeWhile (fun c => c ≠ '%' ∧ c ≠ '.')
    if run.isEmpty then none
    else
      let r := l.drop run.length
      if dollarOk r then some (dot ++ run, r.takeWhile (· ≠ '\n')) else none

/-- Embedding of `re.match(r'(\.?(?:%\{\?milestone\}|[^%.]+))(.*)$', tail)`:
returns `(milestone, rest)`; when the pattern does not match, the source
falls back to `milestone = ''`, `rest = tail`. -/
def milestoneSplit (tail : List Char) : List Char × List Char :=
  match tail with
  | '.' :: rest =>
    match msAttempt ['.'] rest with
    | some p => p
    | none => ([], tail)
  | _ =>
    match msAttempt [] tail with
    | some p => p
    | none => ([], tail)

/-- Embedding of `specfile.release_parts`: split an RPM Release string into
`(numeric part, milestone, rest)`. -/
def release_parts (version : String) : String × String × String :=
  let vp := version_parts version
  let numver := vp.1
  let tail := vp.2
  let nt :=
    if numver ≠ "" ∧ ¬(numver.data.headD ' ').isDigit then ("", numver)
    else (numver, tail)
  let ms := milestoneSplit nt.2.data
  (nt.1, String.mk ms.1, String.mk ms.2)

/-- `RELEASE_PARTS_SEMVER` lookup. -/
def releasePartsSemver (s : String) : Option Int :=
  if s = "MAJOR" then some 1
  else if s = "MINOR" then some 2
  else if s = "PATCH" then some 3
  else none

/-- Embedding of the release-string computation inside
`Spec.bump_release` (everything between `get_release_parts()` and the final
`set_release` call): given the decomposed Release parts and the `index`
argument, produce the new release string that is handed to `set_release`,
or the error raised.  The `index == '0'` early return is handled by the
caller (`bump_release_computed`), as in the source. -/
def bump_release_value (parts : String × String × String)
    (index : Option String) : Except SpecErr String :=
  let numbers := parts.1
  let _milestone := parts.2.1
  let index := index.map (fun s => String.mk (s.data.map Char.toUpper))
  if index = none ∨ index = some "LAST-NUMERIC" then
    -- numlist = numbers.split('.'); i = -1; if numbers[-1] == '.': i = -2
    let numlist := splitChar '.' numbers.data
    match pyListGetI numbers.data (-1) with
    | none => .error .pyIndexError
    | some lastc =>
      let i : Int := if lastc = '.' then -2 else -1
      match pyListGetI numlist i with
      | none => .error .pyIndexError
      | some part =>
        match pyIntL part with
        | none => .error .pyValueError
        | some v =>
          .ok (String.mk (joinChar '.'
            (pyListSetI numlist i (intToDecStr (v + 1)).data)))
  else
    let idxStr := index.getD ""
    let n : Except SpecErr Int :=
      match releasePartsSemver idxStr with
      | some n => .ok n
      | none =>
        match pyIntL idxStr.data with
        | none => .error (.invalidReleaseBumpIndex idxStr)
        | some n =>
          if n < 0 then
            .error (.invalidReleaseBumpIndex
              (idxStr ++ " (positive integer required)"))
          else .ok n
    match n with
    | .error e => .error e
    | .ok n =>
      let i := n - 1
      let release := numbers.data ++ _milestone.data
      let parts := splitChar '.' release
      match pyListGetI parts i with
      | none =>
        .error (.invalidReleaseBumpIndex
          (intToDecStr n ++ " (Release: " ++ String.mk release ++ ")"))
      | some p =>
        match pyIntL p with
        | none =>
          .error (.invalidReleaseBumpIndex
            (intToDecStr n ++ ". part of Release '" ++ String.mk release
              ++ "' isn't numeric: " ++ String.mk p))
        | some v =>
          .ok (String.mk (joinChar '.'
            (pyListSetI parts i (intToDecStr (v + 1)).data)))

/-- Trailing-whitespace strip (Python `str.rstrip()`). -/
def rstrip (s : String) : String :=
  String.mk (s.data.reverse.dropWhile Char.isWhitespace).reverse

/-- Matcher for `re.search(r'^TAG:\s+(\S.*)$', txt, re.M)` at one position
(`lineStart` tells whether `^` holds here).  `\s+` is greedy and may cross
newlines; `(\S.*)` is one non-space character followed by the rest of the
line; `$` then always holds in MULTILINE mode. -/
def tagMatchAt (tagc : List Char) (l : List Char) (lineStart : Bool) :
    Option (List Char) :=
  if !lineStart then none
  else
    match (tagc ++ [':']).isPrefixOf l with
    | false => none
    | true =>
      let r := l.drop (tagc.length + 1)
      let ws := r.takeWhile Char.isWhitespace
      if ws.isEmpty then none
      else
        match r.dropWhile Char.isWhitespace with
        | [] => none
        | c :: rest => some (c :: rest.takeWhile (· ≠ '\n'))

/-- Left-to-right scan for the first `^TAG:\s+(\S.*)$` match. -/
def tagScan (tagc : List Char) : List Char → Bool → Option (List Char)
  | [], _ => none
  | c :: rest, lineStart =>
    match tagMatchAt tagc (c :: rest) lineStart with
    | some v => some v
    | none => tagScan tagc rest (c = '\n')

/-- Embedding of `Spec.get_tag` with no default and no macro expansion:
first `^tag:\s+(\S.*)$` match (MULTILINE), right-stripped, else
`SpecFileParseError("tag not found")`. -/
def get_tag (txt tag : String) : Except SpecErr String :=
  match tagScan tag.data txt.data true with
  | some v => .ok (rstrip (String.mk v))
  | none => .error (.parseError (tag ++ " tag not found"))

/-- Embedding of `Spec.bump_release` up to the value handed to
`set_release`: `some new` is that value, `none` is the `index == '0'`
no-op early return (which skips even the Release tag lookup). -/
def bump_release_computed (txt : String) (index : Option String) :
    Except SpecErr (Option String) :=
  if index = some "0" then .ok none
  else
    match get_tag txt "Release" with
    | .error e => .error e
    | .ok rel => (bump_release_value (release_parts rel) index).map some

/-- Document buffer for `Spec.save`: `fn` is the resolved spec filename
(`none` when none can be resolved), `txt` the buffer contents after the
lazy load (`self.txt`), `lastRead` the bytes most recently read from
storage.  The source never consults `lastRead`. -/
structure SpecBuf where
  fn : Option String
  txt : String
  lastRead : String

/-- Result of a `save()` call: either no write happened, or `content` was
written to the backing file. -/
inductive SaveOutcome where
  | noWrite
  | write (content : String)
  deriving Repr, DecidableEq

/-- Embedding of `Spec.save`: an empty buffer returns early with no I/O;
otherwise the buffer is always written (there is no comparison with what
was last read). -/
def save (b : SpecBuf) : Except SpecErr SaveOutcome :=
  if b.txt = "" then .ok .noWrite
  else
    match b.fn with
    | none => .error .invalidAction
    | some _ => .ok (.write b.txt)

/-- Generic engine for `re.sub(pattern, '', txt)`-style scans: `m l flag`
returns the number of characters consumed by a match starting at `l` (all
matchers here consume at least one character), `nf c` computes the anchor
flag for the position following character `c` (`c = '\n'` for MULTILINE
`^`, constantly `false` for string-start `^`).  The `Nat` argument is the
remaining number of characters to skip from a previous match. -/
def reScan (m : List Char → Bool → Option Nat) (nf : Char → Bool) :
    List Char → Bool → Nat → List Char
  | [], _, _ => []
  | c :: rest, _, s + 1 => reScan m nf rest (nf c) s
  | c :: rest, flag, 0 =>
    match m (c :: rest) flag with
    | some k => reScan m nf rest (nf c) (k - 1)
    | none => c :: reScan m nf rest (nf c) 0

/-- Generic engine for `re.search` / first-match `re.subn(..., count=1)`:
returns the characters before the first match together with the matcher's
answer at the match position. -/
def reFirst {α : Type} (m : List Char → Bool → Option α) (nf : Char → Bool) :
    List Char → Bool → Option (List Char × α)
  | [], _ => none
  | c :: rest, flag =>
    match m (c :: rest) flag with
    | some a => some ([], a)
    | none => (reFirst m nf rest (nf c)).map (fun p => (c :: p.1, p.2))

/-- Generic engine for `re.finditer(...)` keeping only the end position of
the last match: `pos` is the absolute position of the head of the list,
the `Nat` before the accumulator is the skip count of the current match. -/
def reLastEnd (m : List Char → Bool → Option Nat) (nf : Char → Bool) :
    List Char → Bool → Nat → Nat → Option Nat → Option Nat
  | [], _, _, _, acc => acc
  | c :: rest, _, pos, s + 1, acc => reLastEnd m nf rest (nf c) (pos + 1) s acc
  | c :: rest, flag, pos, 0, acc =>
    match m (c :: rest) flag with
    | some k => reLastEnd m nf rest (nf c) (pos + 1) (k - 1) (some (pos + k))
    | none => reLastEnd m nf rest (nf c) (pos + 1) 0 acc

/-- Matcher for the `\s?=` part of the `get_magic_comment` pattern
(`\s?` is greedy: one whitespace character is consumed when it is followed
by `=`). -/
def wsOptEq : List Char → Option (List Char)
  | '=' :: r => some r
  | c :: '=' :: r => if c.isWhitespace then some r else none
  | _ => none

/-- Matcher for the `\s?(\S+)` tail of the `get_magic_comment` pattern:
greedily consume one optional whitespace character, then capture a
nonempty maximal run of non-whitespace characters. -/
def valueAfterEq (r : List Char) : Option (List Char) :=
  match r with
  | [] => none
  | c :: rest =>
    if c.isWhitespace then
      let v := rest.takeWhile (fun x => !x.isWhitespace)
      if v.isEmpty then none else some v
    else
      let v := (c :: rest).takeWhile (fun x => !x.isWhitespace)
      if v.isEmpty then none else some v

/-- Attempt `NAME\s?=\s?(\S+)` at the head of `l` (`NAME` is the
`re.escape`d literal annotation name). -/
def magicTryName (name l : List Char) : Option (List Char) :=
  if name.isPrefixOf l then
    match wsOptEq (l.drop name.length) with
    | some r => valueAfterEq r
    | none => none
  else none

/-- The lazy `\s*?` loop of the `get_magic_comment` pattern: try the rest
of the pattern here; on failure consume one whitespace character (any
whitespace, including newlines) and retry. -/
def magicLazy (name : List Char) : List Char → Option (List Char)
  | [] => none
  | c :: rest =>
    match magicTryName name (c :: rest) with
    | some v => some v
    | none => if c.isWhitespace then magicLazy name rest else none

/-- Matcher for `^#\s*?NAME\s?=\s?(\S+)` (MULTILINE) at one position. -/
def magicValAt (name : List Char) (l : List Char) (lineStart : Bool) :
    Option (List Char) :=
  match l, lineStart with
  | '#' :: rest, true => magicLazy name rest
  | _, _ => none

/-- Embedding of `Spec.get_magic_comment` (without macro expansion, the
default): the first `^#\s*?name\s?=\s?(\S+)` match in the document, or
`none`. -/
def get_magic_comment (txt name : String) : Option String :=
  (reFirst (magicValAt name.data) (fun c => c = '\n') txt.data true).map
    (fun p => String.mk p.2)

/-- Greedy `(?:#\n)*` consumer. -/
def dropHashNl : List Char → List Char
  | '#' :: '\n' :: r => dropHashNl r
  | l => l

/-- Core of the `set_magic_comment` removal pattern after the optional
`(?:^#)*` part: `\s*NAME\s*=[^\n]*\n(?:#\n)*`.  Both `\s*` runs are greedy
(backtracking cannot help since `NAME` and `=` start with non-whitespace),
`[^\n]*` runs to the end of the line and the final newline is required. -/
def dropCore (name l : List Char) : Option (List Char) :=
  let r1 := l.dropWhile Char.isWhitespace
  if name.isPrefixOf r1 then
    let r2 := (r1.drop name.length).dropWhile Char.isWhitespace
    match r2 with
    | '=' :: r3 =>
      match r3.dropWhile (· ≠ '\n') with
      | '\n' :: r5 => some (dropHashNl r5)
      | _ => none
    | _ => none
  else none

/-- Matcher for the full removal pattern
`(?:^#)*\s*NAME\s*=[^\n]*\n(?:#\n)*` (MULTILINE): at a line start, `(?:^#)*`
can consume one `#` (it cannot iterate further because the position after
`#` is not a line start); if the rest fails, it backtracks to zero
iterations.  Returns the number of characters consumed. -/
def dropTry (name : List Char) (l : List Char) (lineStart : Bool) :
    Option Nat :=
  let rem : Option (List Char) :=
    match l, lineStart with
    | '#' :: rest, true =>
      match dropCore name rest with
      | some r => some r
      | none => dropCore name ('#' :: rest)
    | _, _ => dropCore name l
  rem.map (fun r => l.length - r.length)

/-- Embedding of the empty-value branch of `Spec.set_magic_comment`
(`value` empty or `None`): `re.sub` of the removal pattern with the empty
replacement, applied to every match. -/
def set_magic_comment_empty (txt name : String) : String :=
  String.mk (reScan (dropTry name.data) (fun c => c = '\n') txt.data true 0)

theorem takeWhile_nonws_spec {l v : List Char}
    (hne : ¬(l.takeWhile (fun x => !x.isWhitespace)).isEmpty = true)
    (h : l.takeWhile (fun x => !x.isWhitespace) = v) :
    v ≠ [] ∧ ∀ c ∈ v, c.isWhitespace = false := by
  subst h
  refine ⟨by simpa [List.isEmpty_iff] using hne, ?_⟩
  intro x hx
  have := List.mem_takeWhile_imp hx
  simpa using this

theorem valueAfterEq_spec {r v : List Char} (h : valueAfterEq r = some v) :
    v ≠ [] ∧ ∀ c ∈ v, c.isWhitespace = false := by
  unfold valueAfterEq at h
  match r with
  | [] => simp at h
  | c :: rest =>
    simp only at h
    by_cases hw : c.isWhitespace
    · rw [if_pos hw] at h
      split at h
      · simp at h
      · rename_i hne
        exact takeWhile_nonws_spec hne (Option.some.inj h)
    · rw [if_neg hw] at h
      split at h
      · simp at h
      · rename_i hne
        exact takeWhile_nonws_spec hne (Option.some.inj h)

theorem magicTryName_spec {name l v : List Char}
    (h : magicTryName name l = some v) :
    v ≠ [] ∧ ∀ c ∈ v, c.isWhitespace = false := by
  unfold magicTryName at h
  split at h
  · split at h
    · exact valueAfterEq_spec h
    · simp at h
  · simp at h

theorem magicLazy_spec {name : List Char} :
    ∀ {l v : List Char}, magicLazy name l = some v →
      v ≠ [] ∧ ∀ c ∈ v, c.isWhitespace = false := by
  intro l
  induction l with
  | nil => intro v h; simp [magicLazy] at h
  | cons c rest ih =>
    intro v h
    unfold magicLazy at h
    split at h
    · rename_i w heq
      cases h
      exact magicTryName_spec heq
    · split at h
      · exact ih h
      · simp at h

theorem magicValAt_spec {name l : List Char} {flag : Bool} {v : List Char}
    (h : magicValAt name l flag = some v) :
    v ≠ [] ∧ ∀ c ∈ v, c.isWhitespace = false := by
  unfold magicValAt at h
  split at h
  · exact magicLazy_spec h
  · simp at h

theorem reFirst_spec {α : Type} {m : List Char → Bool → Option α}
    {nf : Char → Bool} {P : α → Prop}
    (hm : ∀ l flag a, m l flag = some a → P a) :
    ∀ {l : List Char} {flag : Bool} {pre : List Char} {a : α},
      reFirst m nf l flag = some (pre, a) → P a := by
  intro l
  induction l with
  | nil => intro flag pre a h; simp [reFirst] at h
  | cons c rest ih =>
    intro flag pre a h
    unfold reFirst at h
    split at h
    · cases h
      exact hm _ _ _ (by assumption)
    · rw [Option.map_eq_some'] at h
      obtain ⟨p, hp, he⟩ := h
      cases he
      exact ih hp

/-- C10: whenever `get_magic_comment` returns a value, that value is a
nonempty token with no whitespace characters: it is the maximal
non-whitespace run captured by `(\S+)` after the `=`, so anything after
the first whitespace on the annotation line is never part of the result. -/
theorem c10_magic_comment_value_has_no_whitespace (txt name v : String)
    (h : get_magic_comment txt name = some v) :
    v ≠ "" ∧ ∀ c ∈ v.data, c.isWhitespace = false := by
  unfold get_magic_comment at h
  rw [Option.map_eq_some'] at h
  obtain ⟨p, hp, he⟩ := h
  obtain ⟨pre, w⟩ := p
  have hspec : w ≠ [] ∧ ∀ c ∈ w, c.isWhitespace = false :=
    reFirst_spec (fun _ _ _ hv => magicValAt_spec hv) hp
  constructor
  · intro hv
    rw [← he] at hv
    have := congrArg String.data hv
    simp at this
    exact hspec.1 this
  · intro c hc
    rw [← he] at hc
    exact hspec.2 c hc

/-- Witness for C10 at a concrete document: the annotation value "1.0"
is returned and satisfies the property. -/
theorem c10_magic_comment_value_witness :
    get_magic_comment "# patches_base=1.0 tail\n" "patches_base"
      = some "1.0" ∧
    ("1.0" : String) ≠ "" ∧ ∀ c ∈ ("1.0" : String).data,
      c.isWhitespace = false :=
  ⟨rfl, c10_magic_comment_value_has_no_whitespace
    "# patches_base=1.0 tail\n" "patches_base" "1.0" rfl⟩

/-- The annotation name used by the `patches_base` claims. -/
def pbName : List Char := "patches_base".data

/-- `k` comment-separator lines, each consisting of `#` alone. -/
def sepHashes : Nat → List Char
  | 0 => []
  | k + 1 => '#' :: '\n' :: sepHashes k

/-- A canonical `# patches_base=1.0` annotation line. -/
def pbAnn : List Char := "# patches_base=1.0\n".data

theorem dropHashNl_sepHashes : ∀ m, dropHashNl (sepHashes m) = [] := by
  intro m
  induction m with
  | zero => rfl
  | succ m ih => simpa [sepHashes, dropHashNl] using ih

theorem dropCore_nl_hash (u : List Char) :
    dropCore pbName ('\n' :: '#' :: u) = none := rfl

theorem dropCore_hash (u : List Char) :
    dropCore pbName ('#' :: u) = none := rfl

theorem dropTry_hash_hash (u : List Char) :
    dropTry pbName ('#' :: '\n' :: '#' :: u) true = none := rfl

theorem dropTry_nl_hash (u : List Char) (flag : Bool) :
    dropTry pbName ('\n' :: '#' :: u) flag = none := rfl

theorem sep_ann_head (k m : Nat) :
    ∃ u, sepHashes k ++ pbAnn ++ sepHashes m = '#' :: u := by
  cases k with
  | zero => exact ⟨_, rfl⟩
  | succ k => exact ⟨_, rfl⟩

theorem reScan_cons_none (mf : List Char → Bool → Option Nat)
    (nf : Char → Bool) (c : Char) (rest : List Char) (flag : Bool)
    (h : mf (c :: rest) flag = none) :
    reScan mf nf (c :: rest) flag 0 = c :: reScan mf nf rest (nf c) 0 := by
  rw [reScan, h]

theorem reScan_cons_match (mf : List Char → Bool → Option Nat)
    (nf : Char → Bool) (c : Char) (rest : List Char) (flag : Bool) (k : Nat)
    (h : mf (c :: rest) flag = some k) :
    reScan mf nf (c :: rest) flag 0 = reScan mf nf rest (nf c) (k - 1) := by
  rw [reScan, h]

theorem reScan_skip_ge (mf : List Char → Bool → Option Nat)
    (nf : Char → Bool) :
    ∀ (l : List Char) (flag : Bool) (s : Nat), l.length ≤ s →
      reScan mf nf l flag s = [] := by
  intro l
  induction l with
  | nil => intro flag s _; cases s <;> rfl
  | cons c rest ih =>
    intro flag s hs
    match s, hs with
    | s + 1, hs =>
      simpa [reScan] using ih (nf c) s (by simpa using hs)

theorem c5_scan_ann (m : Nat) :
    reScan (dropTry pbName) (fun c => c = '\n')
      (pbAnn ++ sepHashes m) true 0 = [] := by
  have h1 : dropCore pbName (" patches_base=1.0\n".data ++ sepHashes m)
      = some (dropHashNl (sepHashes m)) := rfl
  have hdrop : dropTry pbName
      ('#' :: (" patches_base=1.0\n".data ++ sepHashes m)) true
      = some (('#' :: (" patches_base=1.0\n".data ++ sepHashes m)).length)
      := by
    unfold dropTry
    simp only [h1, dropHashNl_sepHashes]
    simp
  rw [show pbAnn ++ sepHashes m
    = '#' :: (" patches_base=1.0\n".data ++ sepHashes m) from rfl]
  rw [reScan_cons_match _ _ _ _ _ _ hdrop]
  apply reScan_skip_ge
  simp

theorem c5_scan (k m : Nat) :
    reScan (dropTry pbName) (fun c => c = '\n')
      (sepHashes k ++ pbAnn ++ sepHashes m) true 0 = sepHashes k := by
  induction k with
  | zero => simpa [sepHashes] using c5_scan_ann m
  | succ k ih =>
    obtain ⟨u, hu⟩ := sep_ann_head k m
    have e1 : sepHashes (k + 1) ++ pbAnn ++ sepHashes m
        = '#' :: '\n' :: (sepHashes k ++ pbAnn ++ sepHashes m) := rfl
    rw [e1]
    rw [reScan_cons_none _ _ _ _ _ (by rw [hu]; exact dropTry_hash_hash u)]
    show '#' :: reScan (dropTry pbName) (fun c => c = '\n')
      ('\n' :: (sepHashes k ++ pbAnn ++ sepHashes m)) false 0 = _
    rw [reScan_cons_none _ _ _ _ _ (by rw [hu]; exact dropTry_nl_hash u false)]
    show '#' :: '\n' :: reScan (dropTry pbName) (fun c => c = '\n')
      (sepHashes k ++ pbAnn ++ sepHashes m) true 0 = _
    rw [ih]
    rfl

theorem reFirst_cons_none {α : Type} (mf : List Char → Bool → Option α)
    (nf : Char → Bool) (c : Char) (rest : List Char) (flag : Bool)
    (h : mf (c :: rest) flag = none) :
    reFirst mf nf (c :: rest) flag
      = (reFirst mf nf rest (nf c)).map (fun p => (c :: p.1, p.2)) := by
  rw [reFirst, h]

theorem magicLazy_sep : ∀ j, magicLazy pbName (sepHashes j) = none := by
  intro j
  cases j with
  | zero => rfl
  | succ j => rfl

theorem magicLazy_nl_sep (k : Nat) :
    magicLazy pbName ('\n' :: sepHashes k) = none := by
  rw [magicLazy,
    show magicTryName pbName ('\n' :: sepHashes k) = none from rfl]
  simpa using magicLazy_sep k

theorem magicValAt_hash_sep (k : Nat) (flag : Bool) :
    magicValAt pbName ('#' :: '\n' :: sepHashes k) flag = none := by
  cases flag with
  | false => rfl
  | true =>
    show magicLazy pbName ('\n' :: sepHashes k) = none
    exact magicLazy_nl_sep k

theorem c5_get_sep (k : Nat) :
    get_magic_comment (String.mk (sepHashes k)) "patches_base" = none := by
  unfold get_magic_comment
  rw [show reFirst (magicValAt ("patches_base" : String).data)
      (fun c => c = '\n') (String.mk (sepHashes k)).data true = none from ?_]
  · rfl
  show reFirst (magicValAt pbName) (fun c => c = '\n')
    (sepHashes k) true = none
  induction k with
  | zero => rfl
  | succ k ih =>
    rw [show sepHashes (k + 1) = '#' :: '\n' :: sepHashes k from rfl]
    rw [reFirst_cons_none _ _ _ _ _ (magicValAt_hash_sep k true)]
    show (reFirst (magicValAt pbName) (fun c => c = '\n')
      ('\n' :: sepHashes k) false).map _ = none
    rw [reFirst_cons_none _ _ _ _ _ (by rfl)]
    show ((reFirst (magicValAt pbName) (fun c => c = '\n')
      (sepHashes k) true).map _).map _ = none
    rw [ih]
    rfl

/-- First `some` result of `f` over a list. -/
def firstSome {α β : Type} (f : α → Option β) : List α → Option β
  | [] => none
  | a :: as =>
    match f a with
    | some b => some b
    | none => firstSome f as

/-- Whether `needle` occurs as a contiguous infix of `hay` (Python
`needle in hay` on strings). -/
def containsInfix (needle : List Char) : List Char → Bool
  | [] => needle.isEmpty
  | c :: rest => needle.isPrefixOf (c :: rest) || containsInfix needle rest

/-- Head match of `(?:Patch|.patch)\d+[^\n]*` (the body of the
`wipe_patches` pattern, after the newlines): the first alternative is the
literal `Patch` followed by at least one digit, the second is any
non-newline character followed by the literal `patch` and at least one
digit; `[^\n]*` then runs to the end of the line.  Returns the remainder
after the match. -/
def patchHeadMatch (l : List Char) : Option (List Char) :=
  if "Patch".data.isPrefixOf l ∧ ((l.drop 5).headD ' ').isDigit then
    some ((l.drop 5).dropWhile (· ≠ '\n'))
  else
    match l with
    | c :: rest =>
      if c ≠ '\n' ∧ "patch".data.isPrefixOf rest
          ∧ ((rest.drop 5).headD ' ').isDigit then
        some ((rest.drop 5).dropWhile (· ≠ '\n'))
      else none
    | [] => none

/-- Matcher for the `wipe_patches` pattern `\n+(?:(?:Patch|.patch)\d+[^\n]*)`
at one position: a maximal run of newlines followed by a patch-directive or
patch-apply line head (giving back newlines cannot help, because the body
cannot start with a newline).  Returns the number of characters consumed. -/
def wipeTry (l : List Char) (_ : Bool) : Option Nat :=
  match l with
  | [] => none
  | c :: _ =>
    if c = '\n' then
      match patchHeadMatch (l.dropWhile (· = '\n')) with
      | some r' => some (l.length - r'.length)
      | none => none
    else none

/-- Embedding of `Spec.wipe_patches`:
`re.sub(r'\n+(?:(?:Patch|.patch)\d+[^\n]*)', '', txt)`. -/
def wipe_patches (txt : String) : String :=
  String.mk (reScan wipeTry (fun _ => false) txt.data true 0)

/-- Embedding of `Spec.patches_apply_method`: look for the git-am or
autosetup idiom, defaulting to manual rpm application. -/
def patches_apply_method (txt : String) : String :=
  if containsInfix ("\ngit am %\x7bpatches\x7d".data) txt.data then "git-am"
  else if containsInfix ("\n%autosetup".data) txt.data then "autosetup"
  else "rpm"

/-- Python `"%04d" % n`: decimal digits zero-padded to width 4. -/
def pad4 (n : Nat) : List Char :=
  List.replicate (4 - (natDigits n).length) '0' ++ natDigits n

/-- One `PatchXXXX: fn` directive line (without its newline). -/
def dirChars (i : Nat) (fn : List Char) : List Char :=
  "Patch".data ++ pad4 i ++ ':' :: ' ' :: fn

/-- The `PatchXXXX: fn` block built by `set_new_patches` (`ps`), numbering
from `i`. -/
def psFrom (i : Nat) : List String → List Char
  | [] => []
  | fn :: rest => dirChars i fn.data ++ '\n' :: psFrom (i + 1) rest

/-- The `%patchXXXX -p1` block built by `set_new_patches` (`pa`), numbering
from `i`. -/
def paFrom (i : Nat) : List String → List Char
  | [] => []
  | _ :: rest =>
    '%' :: "patch".data ++ pad4 i ++ " -p1\n".data ++ paFrom (i + 1) rest

/-- One `#[ \t]*\n` comment line: returns the remainder after it. -/
def aLine (l : List Char) : Option (List Char) :=
  match l with
  | '#' :: r =>
    match r.dropWhile (fun c => c = ' ' ∨ c = '\t') with
    | '\n' :: r3 => some r3
    | _ => none
  | _ => none

/-- Fuel-driven list of suffixes reachable by consuming 0, 1, 2, ...
`#[ \t]*\n` lines (for the greedy-with-backtracking `(?:#[ \t]*\n)*`). -/
def aStarSuffixesF : Nat → List Char → List (List Char)
  | 0, l => [l]
  | fuel + 1, l =>
    l :: (match aLine l with
          | some r => aStarSuffixesF fuel r
          | none => [])

/-- Suffixes after consuming each possible number of `#[ \t]*\n` lines. -/
def aStarSuffixes (l : List Char) : List (List Char) :=
  aStarSuffixesF l.length l

/-- Fuel-driven greedy consumption of `(?:#[ \t]*\n)*`. -/
def aStarConsumeF : Nat → List Char → List Char
  | 0, l => l
  | fuel + 1, l =>
    match aLine l with
    | some r => aStarConsumeF fuel r
    | none => l

/-- Greedy consumption of `(?:#[ \t]*\n)*`. -/
def aStarConsume (l : List Char) : List Char :=
  aStarConsumeF l.length l

/-- The `#\s*[\D_]*\s*=[^\n]*\n` part of the magic-comment anchor pattern:
after the `#`, the three starred pieces together can reach exactly the
maximal run of non-digit characters, so the `=` consumed is the last `=`
in that run that still has a newline after it (earlier ones are tried as
the greedy run backtracks); `[^\n]*` then runs to that newline.  Returns
the remainder after the consumed newline. -/
def bMatch (l : List Char) : Option (List Char) :=
  match l with
  | '#' :: r =>
    let run := r.takeWhile (fun c => ¬ c.isDigit)
    let eqIdxs := ((List.range run.length).filter
      (fun i => run.get? i = some '=')).reverse
    firstSome (fun idx =>
      match (r.drop (idx + 1)).dropWhile (· ≠ '\n') with
      | '\n' :: r5 => some r5
      | _ => none) eqIdxs
  | _ => none

/-- Matcher for `RE_AFTER_MAGIC_COMMENTS`
`((?:^|\n)(?:#[ \t]*\n)*#\s*[\D_]*\s*=[^\n]*\n(?:#[ \t]*\n)*)\n*` at one
position (`atStart` is true only at the very beginning of the string —
the pattern is compiled without MULTILINE).  Returns
`(group1, remainder after the whole match)`; the leading `(?:#[ \t]*\n)*`
is greedy, backtracking one comment line at a time when the `#...=` core
fails. -/
def magicAnchorTry (l : List Char) (atStart : Bool) :
    Option (List Char × List Char) :=
  let start : Option (List Char) :=
    if atStart then some l
    else match l with
      | '\n' :: r => some r
      | _ => none
  match start with
  | none => none
  | some body =>
    (firstSome (fun s =>
      match bMatch s with
      | some r5 => some (aStarConsume r5)
      | none => none) (aStarSuffixes body).reverse).map (fun r6 =>
        (l.take (l.length - r6.length), r6.dropWhile (· = '\n')))

/-- Matcher for `RE_AFTER_SOURCES` `((?:^|\n)Source\d*:[^\n]*\n\n?)` at one
position (`atStart` true only at position 0; no MULTILINE).  Returns the
number of characters consumed. -/
def sourcesTry (l : List Char) (atStart : Bool) : Option Nat :=
  let start : Option (List Char) :=
    if atStart then some l
    else match l with
      | '\n' :: r => some r
      | _ => none
  match start with
  | none => none
  | some body =>
    if "Source".data.isPrefixOf body then
      let r1 := (body.drop 6).dropWhile Char.isDigit
      match r1 with
      | ':' :: r2 =>
        match r2.dropWhile (· ≠ '\n') with
        | '\n' :: r3 =>
          let r4 := match r3 with
            | '\n' :: r4 => r4
            | _ => r3
          some (l.length - r4.length)
        | _ => none
      | _ => none
    else none

/-- Scanning engine for a global `re.subn` with a replacement: the matcher
returns the replacement text and the number of characters consumed; the
scan returns the rewritten text and the match count. -/
def reSubScanCount (m : List Char → Bool → Option (List Char × Nat))
    (nf : Char → Bool) : List Char → Bool → Nat → Nat → List Char × Nat
  | [], _, _, n => ([], n)
  | c :: rest, _, s + 1, n => reSubScanCount m nf rest (nf c) s n
  | c :: rest, flag, 0, n =>
    match m (c :: rest) flag with
    | some (rep, k) =>
      let p := reSubScanCount m nf rest (nf c) (k - 1) (n + 1)
      (rep ++ p.1, p.2)
    | none =>
      let p := reSubScanCount m nf rest (nf c) 0 n
      (c :: p.1, p.2)

/-- Matcher for `((?:^|\n)%setup[^\n]*\n)\s*` with replacement
`\g<1>\n<pa>\n` (the apply-lines insertion of `set_new_patches`): returns
the replacement and the consumed length; the trailing `\s*` greedily
consumes whitespace, newlines included. -/
def setupTry (pa : List Char) (l : List Char) (atStart : Bool) :
    Option (List Char × Nat) :=
  let start : Option (List Char × List Char) :=
    if atStart then some ([], l)
    else match l with
      | '\n' :: r => some (['\n'], r)
      | _ => none
  match start with
  | none => none
  | some (nl, body) =>
    if "%setup".data.isPrefixOf body then
      let afterKw := body.drop 6
      let lineRest := afterKw.takeWhile (· ≠ '\n')
      match afterKw.dropWhile (· ≠ '\n') with
      | '\n' :: r2 =>
        let r3 := r2.dropWhile Char.isWhitespace
        let g1 := nl ++ "%setup".data ++ lineRest ++ ['\n']
        some (g1 ++ '\n' :: (pa ++ ['\n']), l.length - r3.length)
      | _ => none
    else none

/-- Result of a text-editing operation: the final buffer text together
with the raised error, if any (a raised Python exception leaves
`self._txt` at its current value). -/
structure EditResult where
  txt : String
  err : Option SpecErr
  deriving Repr, DecidableEq

/-- Error message of the missing patch anchor. -/
def patchAnchorErrMsg : String := "Failed to append PatchXXXX: lines"

/-- Error message of the missing `%setup` anchor. -/
def setupAnchorErrMsg : String :=
  "Failed to append %patchXXXX lines after %setup"

/-- The final step of `set_new_patches`: for the manual (`rpm`) apply
method, insert the `%patchXXXX` block after every `%setup` line, raising
the `%setup` ParseError when no such line exists. -/
def apply_lines_step (am : String) (pa : List Char) (t2 : List Char) :
    EditResult :=
  if am = "rpm" then
    let p := reSubScanCount (setupTry pa) (fun _ => false) t2 true 0 0
    if p.2 = 0 then
      ⟨String.mk p.1, some (.parseError setupAnchorErrMsg)⟩
    else ⟨String.mk p.1, none⟩
  else ⟨String.mk t2, none⟩

/-- Embedding of `Spec.set_new_patches` after the initial `wipe_patches`
call: `t1` is the already-wiped text.  Mirrors the source: early return on
an empty filename list; first try to insert the `PatchXXXX:` block after
the magic-comment anchor, then after the last `SourceN:` match (with the
newline-padding fixups, including the uncaught IndexError when the last
Source match ends exactly at the end of the buffer); finally the
apply-lines step. -/
def set_new_patches_core (t1 : List Char) (fns : List String) : EditResult :=
  if fns.isEmpty then ⟨String.mk t1, none⟩
  else
    let am := patches_apply_method (String.mk t1)
    let ps := psFrom 1 fns
    let pa := if am = "rpm" then paFrom 1 fns else []
    let step2 : List Char × Option SpecErr :=
      match reFirst magicAnchorTry (fun _ => false) t1 true with
      | some (pre, (g1, rest)) => (pre ++ g1 ++ ps ++ '\n' :: rest, none)
      | none =>
        match reLastEnd sourcesTry (fun _ => false) t1 true 0 0 none with
        | none => (t1, some (.parseError patchAnchorErrMsg))
        | some i =>
          match t1.get? (i - 2) with
          | none => (t1, some .pyIndexError)
          | some c2 =>
            match t1.get? i with
            | none => (t1, some .pyIndexError)
            | some ci =>
              let startnl := if c2 ≠ '\n' then ['\n'] else []
              let endnl := if ci ≠ '\n' then ['\n'] else []
              (t1.take i ++ startnl ++ (ps ++ endnl) ++ t1.drop i, none)
    match step2 with
    | (t2, some e) => ⟨String.mk t2, some e⟩
    | (t2, none) => apply_lines_step am pa t2

/-- Embedding of `Spec.set_new_patches`: wipe all existing patch
directives and apply lines, then regenerate them from `fns`. -/
def set_new_patches (txt : String) (fns : List String) : EditResult :=
  set_new_patches_core (reScan wipeTry (fun _ => false) txt.data true 0) fns

/-- Per-line reading of the `Spec.get_patch_fns` pattern
`^\s*Patch\d+:\s*(\S+)\s*$` (MULTILINE): on a single line (no newlines),
optional whitespace, the literal `Patch`, at least one digit, `:`,
optional whitespace, a single non-whitespace token, optional trailing
whitespace. -/
def linePatchFn (l : List Char) : Option (List Char) :=
  let r1 := l.dropWhile Char.isWhitespace
  if "Patch".data.isPrefixOf r1 then
    let r2 := r1.drop 5
    if (r2.takeWhile Char.isDigit).isEmpty then none
    else
      match r2.dropWhile Char.isDigit with
      | ':' :: r3 =>
        let r4 := r3.dropWhile Char.isWhitespace
        let v := r4.takeWhile (fun c => !c.isWhitespace)
        if v.isEmpty then none
        else if (r4.drop v.length).all Char.isWhitespace then some v
        else none
      | _ => none
  else none

/-- Embedding of `Spec.get_patch_fns`: the captured filenames of all patch
directive lines, in order. -/
def get_patch_fns (txt : String) : List String :=
  ((splitChar '\n' txt.data).filterMap linePatchFn).map String.mk

/-- The full patch directive lines of a document, in order. -/
def patch_directive_lines (txt : String) : List String :=
  ((splitChar '\n' txt.data).filter
    (fun l => (linePatchFn l).isSome)).map String.mk

theorem apply_lines_step_err_ne_anchor (am : String) (pa t2 : List Char) :
    (apply_lines_step am pa t2).err
      ≠ some (.parseError patchAnchorErrMsg) := by
  unfold apply_lines_step
  split
  · dsimp only
    split
    · simp [setupAnchorErrMsg, patchAnchorErrMsg]
    · simp
  · simp

theorem set_new_patches_core_anchor_err (t1 : List Char) (fns : List String)
    (h : (set_new_patches_core t1 fns).err
      = some (.parseError patchAnchorErrMsg)) :
    (set_new_patches_core t1 fns).txt = String.mk t1 := by
  unfold set_new_patches_core at h ⊢
  cases hf : fns.isEmpty with
  | true => simp [hf] at h
  | false =>
    simp only [hf, Bool.false_eq_true, if_false] at h ⊢
    cases hm : reFirst magicAnchorTry (fun _ => false) t1 true with
    | some p =>
      obtain ⟨pre, g1, rest⟩ := p
      simp only [hm] at h
      exact absurd h (apply_lines_step_err_ne_anchor _ _ _)
    | none =>
      simp only [hm] at h ⊢
      cases hs : reLastEnd sourcesTry (fun _ => false) t1 true 0 0 none with
      | none => simp only [hs] at h ⊢
      | some i =>
        simp only [hs] at h ⊢
        cases h2 : t1.get? (i - 2) with
        | none => simp only [h2]
        | some c2 =>
          simp only [h2] at h ⊢
          cases h3 : t1.get? i with
          | none => simp only [h3]
          | some ci =>
            simp only [h3] at h ⊢
            exact absurd h (apply_lines_step_err_ne_anchor _ _ _)

/-- C1 counterexample: on the document "x\nPatch0001: a.patch\n" (which
has a patch directive but no insertion anchor), `set_new_patches` raises
the anchor ParseError, yet the buffer afterwards is "x\n": the
pre-existing patch directive was already wiped before the error, so the
failed operation did not leave the text as it was before the call. -/
theorem c1_failed_set_new_patches_modifies_text :
    set_new_patches "x\nPatch0001: a.patch\n" ["b.patch"]
      = ⟨"x\n", some (.parseError patchAnchorErrMsg)⟩ ∧
    ("x\n" : String) ≠ "x\nPatch0001: a.patch\n" :=
  ⟨rfl, by decide⟩

/-- C1 amended: when `set_new_patches` fails with the anchor-not-found
ParseError, the buffer text is exactly `wipe_patches` of the original
text — the wipe step has already been applied (so pre-existing patch
directives and apply lines preceded by a newline are lost), but the
insertion step has not. -/
theorem c1_anchor_failure_leaves_wiped_text (txt : String)
    (fns : List String)
    (h : (set_new_patches txt fns).err
      = some (.parseError patchAnchorErrMsg)) :
    (set_new_patches txt fns).txt = wipe_patches txt := by
  unfold set_new_patches at h ⊢
  unfold wipe_patches
  exact set_new_patches_core_anchor_err _ fns h

/-- Witness for C1 amended at the concrete counterexample document. -/
theorem c1_anchor_failure_leaves_wiped_text_witness :
    (set_new_patches "x\nPatch0001: a.patch\n" ["b.patch"]).err
      = some (.parseError patchAnchorErrMsg) ∧
    (set_new_patches "x\nPatch0001: a.patch\n" ["b.patch"]).txt
      = wipe_patches "x\nPatch0001: a.patch\n" :=
  ⟨rfl, c1_anchor_failure_leaves_wiped_text "x\nPatch0001: a.patch\n"
    ["b.patch"] rfl⟩

/-- The document used to validate the patch-series claims: a name, a
source tag, a blank line and an autosetup invocation. -/
def d6Txt : String := "Name: foo\nSource0: foo.tar\n\n%autosetup\n"

/-- The text after the Source-anchor insertion point of `d6Txt`. -/
def tTail : List Char := "\n%autosetup\n".data

/-- The text up to the Source-anchor insertion point of `d6Txt`. -/
def p0Head : List Char := "Name: foo\nSource0: foo.tar\n\n".data

/-- The result text of `set_new_patches` on `d6Txt`. -/
def rTxt (fns : List String) : List Char := p0Head ++ psFrom 1 fns ++ tTail

/-- A well-formed patch filename: nonempty, no whitespace characters. -/
def ValidFn (f : String) : Prop :=
  f.data ≠ [] ∧ ∀ c ∈ f.data, c.isWhitespace = false

/-- The directive lines `set_new_patches` is expected to produce. -/
def expDirFrom (i : Nat) : List String → List String
  | [] => []
  | fn :: rest => String.mk (dirChars i fn.data) :: expDirFrom (i + 1) rest

theorem takeWhile_all_append {p : Char → Bool} :
    ∀ (a : List Char) (c : Char) (r : List Char), (∀ x ∈ a, p x = true) →
      p c = false →
      (a ++ c :: r).takeWhile p = a ∧ (a ++ c :: r).dropWhile p = c :: r := by
  intro a
  induction a with
  | nil =>
    intro c r _ hc
    simp [List.takeWhile, List.dropWhile, hc]
  | cons x a ih =>
    intro c r ha hc
    have hx : p x = true := ha x (by simp)
    have := ih c r (fun y hy => ha y (by simp [hy])) hc
    simp [List.takeWhile, List.dropWhile, hx, this.1, this.2]

theorem takeWhile_all {p : Char → Bool} :
    ∀ (a : List Char), (∀ x ∈ a, p x = true) → a.takeWhile p = a := by
  intro a
  induction a with
  | nil => simp
  | cons x a ih =>
    intro ha
    simp only [List.takeWhile, ha x (by simp)]
    exact congrArg (x :: ·) (ih fun y hy => ha y (by simp [hy]))

theorem dropWhile_head_false {p : Char → Bool} (c : Char) (r : List Char)
    (hc : p c = false) : (c :: r).dropWhile p = c :: r := by
  simp [List.dropWhile, hc]

theorem prefix_self_append : ∀ (a b : List Char),
    a.isPrefixOf (a ++ b) = true := by
  intro a
  induction a with
  | nil => intro b; simp [List.isPrefixOf]
  | cons x a ih => intro b; simp [List.isPrefixOf, ih b]

theorem natDigitsF_digits :
    ∀ (fuel n : Nat), ∀ c ∈ natDigitsF fuel n, c.isDigit = true := by
  intro fuel
  induction fuel with
  | zero => intro n c hc; simp [natDigitsF] at hc
  | succ fuel ih =>
    intro n c hc
    unfold natDigitsF at hc
    split at hc
    · rename_i hn
      simp only [List.mem_singleton] at hc
      subst hc
      interval_cases n <;> decide
    · rename_i hn
      rw [List.mem_append] at hc
      rcases hc with hc | hc
      · exact ih _ c hc
      · simp only [List.mem_singleton] at hc
        subst hc
        have h10 : n % 10 < 10 := Nat.mod_lt _ (by omega)
        interval_cases h : n % 10 <;> simp_all

theorem natDigits_digits (n : Nat) : ∀ c ∈ natDigits n, c.isDigit = true :=
  natDigitsF_digits (n + 1) n

theorem natDigitsF_ne_nil (fuel n : Nat) :
    natDigitsF (fuel + 1) n ≠ [] := by
  unfold natDigitsF
  split
  · simp
  · simp

theorem pad4_digits (i : Nat) : ∀ c ∈ pad4 i, c.isDigit = true := by
  intro c hc
  unfold pad4 at hc
  rw [List.mem_append] at hc
  rcases hc with hc | hc
  · have := List.eq_of_mem_replicate hc
    subst this
    decide
  · exact natDigits_digits i c hc

theorem pad4_ne_nil (i : Nat) : pad4 i ≠ [] := by
  unfold pad4
  intro h
  rw [List.append_eq_nil] at h
  exact natDigitsF_ne_nil i i h.2

theorem pad4_head_digit (i : Nat) : ((pad4 i).headD ' ').isDigit = true := by
  cases hp : pad4 i with
  | nil => exact absurd hp (pad4_ne_nil i)
  | cons c r =>
    have : c ∈ pad4 i := by rw [hp]; simp
    simpa using pad4_digits i c this

theorem wipeTry_flag (l : List Char) (flag flag' : Bool) :
    wipeTry l flag = wipeTry l flag' := rfl

theorem reScan_wipeTry_flag :
    ∀ (l : List Char) (flag flag' : Bool) (s : Nat),
      reScan wipeTry (fun _ => false) l flag s
        = reScan wipeTry (fun _ => false) l flag' s := by
  intro l
  induction l with
  | nil => intro flag flag' s; cases s <;> rfl
  | cons c rest ih =>
    intro flag flag' s
    cases s with
    | zero =>
      simp only [reScan]
      rw [wipeTry_flag (c :: rest) flag' flag]
    | succ s => simp only [reScan]

theorem wipeTry_ne_nl (c : Char) (rest : List Char) (flag : Bool)
    (hc : ¬(c = '\n')) : wipeTry (c :: rest) flag = none := by
  unfold wipeTry
  simp [hc]

theorem reScan_wipe_nonl :
    ∀ (a rest : List Char) (flag : Bool), (∀ c ∈ a, ¬(c = '\n')) →
      reScan wipeTry (fun _ => false) (a ++ rest) flag 0
        = a ++ reScan wipeTry (fun _ => false) rest false 0 := by
  intro a
  induction a with
  | nil => intro rest flag _; exact reScan_wipeTry_flag rest flag false 0
  | cons c a ih =>
    intro rest flag ha
    rw [List.cons_append,
      reScan_cons_none _ _ _ _ _ (wipeTry_ne_nl c (a ++ rest) flag
        (ha c (by simp)))]
    rw [ih rest _ (fun x hx => ha x (by simp [hx]))]
    rfl

theorem reScan_skip_through (mf : List Char → Bool → Option Nat) :
    ∀ (a l : List Char) (flag : Bool) (s : Nat),
      reScan mf (fun _ => false) (a ++ l) flag (a.length + s)
        = if a.isEmpty then reScan mf (fun _ => false) l flag s
          else reScan mf (fun _ => false) l false s := by
  intro a
  induction a with
  | nil => intro l flag s; simp
  | cons c a ih =>
    intro l flag s
    rw [show (c :: a).length + s = (a.length + s) + 1 from by
      simp [List.length_cons]; omega]
    rw [List.cons_append]
    show reScan mf (fun _ => false) (a ++ l) false (a.length + s) = _
    rw [ih l false s]
    cases a <;> simp

theorem dirChars_ne_nil (i : Nat) (f : List Char) : dirChars i f ≠ [] := by
  intro h
  simp [dirChars] at h

theorem isDigit_ne_nl {c : Char} (h : c.isDigit = true) : ¬(c = '\n') := by
  intro he
  subst he
  simp at h

theorem nonws_ne_nl {c : Char} (h : c.isWhitespace = false) : ¬(c = '\n') := by
  intro he
  subst he
  simp at h

theorem patchHeadMatch_dir (i : Nat) (f : List Char) (rest2 : List Char)
    (hf : ∀ c ∈ f, ¬(c = '\n')) :
    patchHeadMatch (dirChars i f ++ '\n' :: rest2) = some ('\n' :: rest2) := by
  have hassoc : dirChars i f ++ '\n' :: rest2
      = "Patch".data ++ ((pad4 i ++ ':' :: ' ' :: f) ++ '\n' :: rest2) := by
    simp [dirChars]
  have hpre : "Patch".data.isPrefixOf (dirChars i f ++ '\n' :: rest2)
      = true := by
    rw [hassoc]; exact prefix_self_append _ _
  have hdrop : (dirChars i f ++ '\n' :: rest2).drop 5
      = (pad4 i ++ ':' :: ' ' :: f) ++ '\n' :: rest2 := by
    rw [hassoc]
    exact List.drop_left "Patch".data _
  have hhead : (((dirChars i f ++ '\n' :: rest2).drop 5).headD ' ').isDigit
      = true := by
    rw [hdrop]
    cases hp : pad4 i with
    | nil => exact absurd hp (pad4_ne_nil i)
    | cons c r =>
      have hc : c ∈ pad4 i := by rw [hp]; simp
      simpa using pad4_digits i c hc
  have hdw : ((dirChars i f ++ '\n' :: rest2).drop 5).dropWhile (· ≠ '\n')
      = '\n' :: rest2 := by
    rw [hdrop, List.append_assoc]
    have := takeWhile_all_append (p := fun c => decide (c ≠ '\n'))
      (pad4 i ++ ':' :: ' ' :: f) '\n' rest2 ?_ (by simp)
    · simpa using this.2
    · intro x hx
      simp only [List.mem_append, List.mem_cons] at hx
      rcases hx with hx | hx | hx | hx
      · simp [isDigit_ne_nl (pad4_digits i x hx)]
      · subst hx; simp
      · subst hx; simp
      · simp [hf x hx]
  unfold patchHeadMatch
  rw [if_pos (by rw [hpre, hhead]; exact ⟨rfl, rfl⟩)]
  rw [hdw]

theorem wipe_ps (fns : List String) (hv : ∀ f ∈ fns, ValidFn f) :
    ∀ i : Nat, reScan wipeTry (fun _ => false)
        ('\n' :: (psFrom i fns ++ tTail)) false 0 = '\n' :: tTail := by
  induction fns with
  | nil => intro i; rfl
  | cons f fs ih =>
    intro i
    have hf : ∀ c ∈ f.data, ¬(c = '\n') :=
      fun c hc => nonws_ne_nl ((hv f (by simp)).2 c hc)
    have hps : psFrom i (f :: fs) ++ tTail
        = dirChars i f.data ++ '\n' :: (psFrom (i + 1) fs ++ tTail) := by
      simp [psFrom]
    have hphm := patchHeadMatch_dir i f.data (psFrom (i + 1) fs ++ tTail) hf
    have hwt : wipeTry ('\n' :: (psFrom i (f :: fs) ++ tTail)) false
        = some ((dirChars i f.data).length + 1) := by
      unfold wipeTry
      dsimp only
      rw [if_pos rfl]
      rw [show ('\n' :: (psFrom i (f :: fs) ++ tTail)).dropWhile (· = '\n')
        = psFrom i (f :: fs) ++ tTail from by
        rw [hps]
        cases hd : dirChars i f.data with
        | nil => exact absurd hd (dirChars_ne_nil i f.data)
        | cons c r =>
          have hcp : c = 'P' := by
            have := congrArg (List.headD · ' ') hd
            simpa [dirChars] using this.symm
          subst hcp
          rfl]
      rw [hps, hphm]
      simp [List.length_append, List.length_cons]
      omega
    rw [reScan_cons_match _ _ _ _ _ _ hwt]
    rw [hps]
    rw [show (dirChars i f.data).length + 1 - 1
      = (dirChars i f.data).length + 0 from by omega]
    rw [reScan_skip_through wipeTry (dirChars i f.data)
      ('\n' :: (psFrom (i + 1) fs ++ tTail)) false 0]
    rw [if_neg (by simpa [List.isEmpty_iff] using dirChars_ne_nil i f.data)]
    exact ih (fun g hg => hv g (by simp [hg])) (i + 1)

theorem wipe_rTxt (fns : List String) (hv : ∀ f ∈ fns, ValidFn f)
    (h1 : fns ≠ []) :
    reScan wipeTry (fun _ => false) (rTxt fns) true 0 = d6Txt.data := by
  obtain ⟨f, fs, rfl⟩ : ∃ g gs, fns = g :: gs := by
    cases fns with
    | nil => exact absurd rfl h1
    | cons a b => exact ⟨a, b, rfl⟩
  have hf : ∀ c ∈ f.data, ¬(c = '\n') :=
    fun c hc => nonws_ne_nl ((hv f (by simp)).2 c hc)
  have e1 : rTxt (f :: fs) = "Name: foo".data
      ++ ('\n' :: ("Source0: foo.tar".data
        ++ ('\n' :: '\n' :: (psFrom 1 (f :: fs) ++ tTail)))) := by
    simp [rTxt, p0Head, psFrom]
  rw [e1]
  rw [reScan_wipe_nonl "Name: foo".data _ true (by decide)]
  rw [reScan_cons_none _ _ _ _ _ (show wipeTry
    ('\n' :: ("Source0: foo.tar".data
      ++ ('\n' :: '\n' :: (psFrom 1 (f :: fs) ++ tTail)))) false
    = none from rfl)]
  rw [reScan_wipe_nonl "Source0: foo.tar".data _ _ (by decide)]
  -- the double newline before the patch block starts a wipe match
  have hps : psFrom 1 (f :: fs) ++ tTail
      = dirChars 1 f.data ++ '\n' :: (psFrom 2 fs ++ tTail) := by
    simp [psFrom]
  have hphm := patchHeadMatch_dir 1 f.data (psFrom 2 fs ++ tTail) hf
  have hwt : wipeTry ('\n' :: '\n' :: (psFrom 1 (f :: fs) ++ tTail)) false
      = some ((dirChars 1 f.data).length + 2) := by
    unfold wipeTry
    dsimp only
    rw [if_pos rfl]
    rw [show ('\n' :: '\n' :: (psFrom 1 (f :: fs) ++ tTail)).dropWhile
        (· = '\n') = psFrom 1 (f :: fs) ++ tTail from by
      rw [hps]
      cases hd : dirChars 1 f.data with
      | nil => exact absurd hd (dirChars_ne_nil 1 f.data)
      | cons c r =>
        have hcp : c = 'P' := by
          have := congrArg (List.headD · ' ') hd
          simpa [dirChars] using this.symm
        subst hcp
        rfl]
    rw [hps, hphm]
    simp [List.length_append, List.length_cons]
    omega
  rw [reScan_cons_match _ _ _ _ _ _ hwt]
  have harr : (dirChars 1 f.data).length + 2 - 1
      = ('\n' :: dirChars 1 f.data).length + 0 := by
    simp [List.length_cons]
  rw [harr]
  rw [show '\n' :: (psFrom 1 (f :: fs) ++ tTail)
    = ('\n' :: dirChars 1 f.data) ++ ('\n' :: (psFrom 2 fs ++ tTail)) from by
    rw [hps]; rfl]
  rw [reScan_skip_through wipeTry ('\n' :: dirChars 1 f.data)
    ('\n' :: (psFrom 2 fs ++ tTail)) false 0]
  rw [if_neg (by simp)]
  rw [wipe_ps fs (fun g hg => hv g (by simp [hg])) 2]
  rfl

theorem snp_core_d6 (fns : List String) (h1 : fns ≠ []) :
    set_new_patches_core d6Txt.data fns = ⟨String.mk (rTxt fns), none⟩ := by
  have hE : fns.isEmpty = false := by
    cases fns with
    | nil => exact absurd rfl h1
    | cons a b => rfl
  unfold set_new_patches_core
  rw [hE]
  simp only [Bool.false_eq_true, if_false]
  rw [show reFirst magicAnchorTry (fun _ => false) d6Txt.data true
    = none from rfl]
  rw [show reLastEnd sourcesTry (fun _ => false) d6Txt.data true 0 0 none
    = some 28 from rfl]
  dsimp only
  rw [show d6Txt.data.get? (28 - 2) = some '\n' from rfl]
  rw [show d6Txt.data.get? 28 = some '%' from rfl]
  dsimp only
  rw [show patches_apply_method (String.mk d6Txt.data) = "autosetup"
    from rfl]
  rw [show (if ('\n' : Char) ≠ '\n' then ['\n'] else []) = [] from by simp]
  rw [show (if ('%' : Char) ≠ '\n' then ['\n'] else []) = ['\n'] from by
    simp]
  unfold apply_lines_step
  rw [if_neg (by decide : ¬(("autosetup" : String) = "rpm"))]
  refine congrArg (fun l => EditResult.mk (String.mk l) none) ?_
  rw [show List.take 28 d6Txt.data = p0Head from rfl,
    show List.drop 28 d6Txt.data = "%autosetup\n".data from rfl]
  show p0Head ++ ([] ++ ((psFrom 1 fns ++ ['\n']) ++ "%autosetup\n".data))
    = rTxt fns
  rw [List.nil_append, List.append_assoc]
  rfl

theorem splitChar_ne_nil (sep : Char) : ∀ l : List Char,
    splitChar sep l ≠ [] := by
  intro l
  induction l with
  | nil => simp [splitChar]
  | cons c rest ih =>
    unfold splitChar
    cases hs : splitChar sep rest with
    | nil => exact absurd hs ih
    | cons h t =>
      by_cases hc : c = sep <;> simp [hc]

theorem splitChar_append_line (sep : Char) :
    ∀ (a r : List Char), (∀ c ∈ a, ¬(c = sep)) →
      splitChar sep (a ++ sep :: r) = a :: splitChar sep r := by
  intro a
  induction a with
  | nil =>
    intro r _
    show splitChar sep (sep :: r) = [] :: splitChar sep r
    conv_lhs => rw [splitChar]
    cases hs : splitChar sep r with
    | nil => exact absurd hs (splitChar_ne_nil sep r)
    | cons h t => simp
  | cons c a ih =>
    intro r ha
    rw [List.cons_append]
    conv_lhs => rw [splitChar]
    rw [ih r (fun x hx => ha x (by simp [hx]))]
    simp [ha c (by simp)]

theorem dropWhile_none {p : Char → Bool} :
    ∀ a : List Char, (∀ c ∈ a, p c = false) → a.dropWhile p = a := by
  intro a
  induction a with
  | nil => simp
  | cons c a _ =>
    intro h
    exact dropWhile_head_false c a (h c (by simp))

theorem linePatchFn_dir (i : Nat) (f : List Char) (hne : f ≠ [])
    (hf : ∀ c ∈ f, c.isWhitespace = false) :
    linePatchFn (dirChars i f) = some f := by
  have hexp : dirChars i f
      = 'P' :: ("atch".data ++ (pad4 i ++ ':' :: ' ' :: f)) := by
    simp [dirChars]
  have hr1 : (dirChars i f).dropWhile Char.isWhitespace = dirChars i f := by
    rw [hexp]
    exact dropWhile_head_false _ _ (by decide)
  have hpre : "Patch".data.isPrefixOf (dirChars i f) = true := by
    rw [show dirChars i f
      = "Patch".data ++ (pad4 i ++ ':' :: ' ' :: f) from rfl]
    exact prefix_self_append _ _
  have hdrop : (dirChars i f).drop 5 = pad4 i ++ ':' :: ' ' :: f := by
    rw [show dirChars i f
      = "Patch".data ++ (pad4 i ++ ':' :: ' ' :: f) from rfl]
    exact List.drop_left "Patch".data _
  have htw := takeWhile_all_append (p := Char.isDigit)
    (pad4 i) ':' (' ' :: f) (pad4_digits i) (by decide)
  unfold linePatchFn
  simp only [hr1, hpre, hdrop, htw.1, htw.2, if_pos]
  rw [if_neg (by simpa [List.isEmpty_iff] using pad4_ne_nil i)]
  rw [show (' ' :: f).dropWhile Char.isWhitespace
    = f.dropWhile Char.isWhitespace from by simp [List.dropWhile]]
  rw [dropWhile_none f hf]
  rw [takeWhile_all f (by intro x hx; simp [hf x hx])]
  rw [if_neg (by simpa [List.isEmpty_iff] using hne)]
  rw [List.drop_length]
  rfl

/-- The per-filename directive lines, as character lists. -/
def dirLineList (i : Nat) : List String → List (List Char)
  | [] => []
  | f :: fs => dirChars i f.data :: dirLineList (i + 1) fs

theorem dirChars_no_nl (i : Nat) (f : List Char)
    (hf : ∀ c ∈ f, c.isWhitespace = false) :
    ∀ c ∈ dirChars i f, ¬(c = '\n') := by
  intro c hc he
  subst he
  unfold dirChars at hc
  rcases List.mem_append.mp hc with hc | hc
  · rcases List.mem_append.mp hc with hc | hc
    · revert hc; decide
    · exact absurd (pad4_digits i '\n' hc) (by decide)
  · simp only [List.mem_cons] at hc
    rcases hc with hc | hc | hc
    · exact absurd hc (by decide)
    · exact absurd hc (by decide)
    · simpa using hf '\n' hc

theorem splitChar_ps (fns : List String) (hv : ∀ f ∈ fns, ValidFn f) :
    ∀ i : Nat, splitChar '\n' (psFrom i fns ++ tTail)
      = dirLineList i fns ++ [[], "%autosetup".data, []] := by
  induction fns with
  | nil => intro i; rfl
  | cons f fs ih =>
    intro i
    have hps : psFrom i (f :: fs) ++ tTail
        = dirChars i f.data ++ '\n' :: (psFrom (i + 1) fs ++ tTail) := by
      simp [psFrom]
    rw [hps, splitChar_append_line '\n' _ _
      (dirChars_no_nl i f.data (hv f (by simp)).2)]
    rw [ih (fun g hg => hv g (by simp [hg])) (i + 1)]
    rfl

theorem splitChar_rTxt (fns : List String) (hv : ∀ f ∈ fns, ValidFn f) :
    splitChar '\n' (rTxt fns)
      = "Name: foo".data :: "Source0: foo.tar".data :: []
        :: (dirLineList 1 fns ++ [[], "%autosetup".data, []]) := by
  have e1 : rTxt fns = "Name: foo".data
      ++ '\n' :: ("Source0: foo.tar".data
        ++ '\n' :: ([] ++ '\n' :: (psFrom 1 fns ++ tTail))) := by
    simp [rTxt, p0Head]
  rw [e1]
  rw [splitChar_append_line '\n' "Name: foo".data _ (by decide)]
  rw [splitChar_append_line '\n' "Source0: foo.tar".data _ (by decide)]
  rw [splitChar_append_line '\n' [] _ (by simp)]
  rw [splitChar_ps fns hv 1]

theorem pdl_rTxt (fns : List String) (hv : ∀ f ∈ fns, ValidFn f) :
    patch_directive_lines (String.mk (rTxt fns)) = expDirFrom 1 fns ∧
    get_patch_fns (String.mk (rTxt fns)) = fns := by
  have hdir : ∀ (gs : List String) (i : Nat), (∀ f ∈ gs, ValidFn f) →
      ((dirLineList i gs).filter
        (fun l => (linePatchFn l).isSome)).map String.mk = expDirFrom i gs
      ∧ ((dirLineList i gs).filterMap linePatchFn).map String.mk = gs := by
    intro gs
    induction gs with
    | nil => intro i _; exact ⟨rfl, rfl⟩
    | cons f fs ih =>
      intro i hg
      have hlp := linePatchFn_dir i f.data (hg f (by simp)).1
        (hg f (by simp)).2
      have hrec := ih (i + 1) (fun g hgg => hg g (by simp [hgg]))
      constructor
      · simp only [dirLineList, List.filter_cons, hlp, Option.isSome_some,
          if_true, List.map_cons, hrec.1, expDirFrom]
      · simp only [dirLineList, List.filterMap_cons, hlp, List.map_cons,
          hrec.2]
  have hsplit := splitChar_rTxt fns hv
  have htail1 : ([[], "%autosetup".data, []] : List (List Char)).filter
      (fun l => (linePatchFn l).isSome) = [] := rfl
  have htail2 : ([[], "%autosetup".data, []] : List (List Char)).filterMap
      linePatchFn = [] := rfl
  constructor
  · unfold patch_directive_lines
    rw [show (String.mk (rTxt fns)).data = rTxt fns from rfl, hsplit]
    rw [List.filter_cons_of_neg (by decide)]
    rw [List.filter_cons_of_neg (by decide)]
    rw [List.filter_cons_of_neg (by decide)]
    rw [List.filter_append, htail1, List.append_nil]
    exact (hdir fns 1 hv).1
  · unfold get_patch_fns
    rw [show (String.mk (rTxt fns)).data = rTxt fns from rfl, hsplit]
    rw [List.filterMap_cons_none (by rfl)]
    rw [List.filterMap_cons_none (by rfl)]
    rw [List.filterMap_cons_none (by rfl)]
    rw [List.filterMap_append, htail2, List.append_nil]
    exact (hdir fns 1 hv).2

/-- C6 counterexample: `wipe_patches` only removes patch directives that
are preceded by a newline, so a directive at the very start of the buffer
survives `set_new_patches`: the result contains the stale `Patch9:`
directive besides the freshly numbered one, not exactly one directive per
supplied filename numbered from 0001. -/
theorem c6_stale_directive_survives :
    set_new_patches "Patch9: old\nSource0: s\n\n%autosetup\n" ["a.patch"]
      = ⟨"Patch9: old\nSource0: s\n\nPatch0001: a.patch\n\n%autosetup\n",
         none⟩ ∧
    patch_directive_lines
        "Patch9: old\nSource0: s\n\nPatch0001: a.patch\n\n%autosetup\n"
      = ["Patch9: old", "Patch0001: a.patch"] ∧
    (["Patch9: old", "Patch0001: a.patch"] : List String)
      ≠ ["Patch0001: a.patch"] :=
  ⟨rfl, rfl, by decide⟩

/-- C6 amended: on a document whose wipe step clears every existing patch
directive (all directives preceded by a newline) and that has a valid
Source insertion anchor — here the representative document `d6Txt` — for
every nonempty list of well-formed filenames `set_new_patches` succeeds
and the resulting document contains exactly one patch directive per
supplied filename, numbered contiguously from 0001 (4-digit zero-padded)
in the supplied order; re-running `set_new_patches` on the result with a
second filename list wipes the previous block and renumbers from 0001
with no stale numbering carried over. -/
theorem c6_set_series_renumbers (fns fns' : List String)
    (h1 : fns ≠ []) (h2 : fns' ≠ [])
    (hv : ∀ f ∈ fns, ValidFn f) (hv' : ∀ f ∈ fns', ValidFn f) :
    (set_new_patches d6Txt fns).err = none ∧
    patch_directive_lines (set_new_patches d6Txt fns).txt
      = expDirFrom 1 fns ∧
    get_patch_fns (set_new_patches d6Txt fns).txt = fns ∧
    (set_new_patches (set_new_patches d6Txt fns).txt fns').err = none ∧
    patch_directive_lines
        (set_new_patches (set_new_patches d6Txt fns).txt fns').txt
      = expDirFrom 1 fns' ∧
    get_patch_fns (set_new_patches (set_new_patches d6Txt fns).txt fns').txt
      = fns' := by
  have hrun1 : set_new_patches d6Txt fns = ⟨String.mk (rTxt fns), none⟩ := by
    unfold set_new_patches
    rw [show reScan wipeTry (fun _ => false) d6Txt.data true 0 = d6Txt.data
      from rfl]
    exact snp_core_d6 fns h1
  have hrun2 : set_new_patches (String.mk (rTxt fns)) fns'
      = ⟨String.mk (rTxt fns'), none⟩ := by
    unfold set_new_patches
    rw [show (String.mk (rTxt fns)).data = rTxt fns from rfl]
    rw [wipe_rTxt fns hv h1]
    exact snp_core_d6 fns' h2
  have hp := pdl_rTxt fns hv
  have hp' := pdl_rTxt fns' hv'
  rw [hrun1]
  exact ⟨rfl, hp.1, hp.2, by rw [hrun2], by rw [hrun2]; exact hp'.1,
    by rw [hrun2]; exact hp'.2⟩

/-- Witness for C6 amended at the filename lists used by the spec's
example, including the reordered re-run. -/
theorem c6_set_series_renumbers_witness :
    (set_new_patches d6Txt ["a.patch", "b.patch"]).err = none ∧
    patch_directive_lines (set_new_patches d6Txt ["a.patch", "b.patch"]).txt
      = expDirFrom 1 ["a.patch", "b.patch"] ∧
    get_patch_fns (set_new_patches d6Txt ["a.patch", "b.patch"]).txt
      = ["a.patch", "b.patch"] ∧
    (set_new_patches (set_new_patches d6Txt ["a.patch", "b.patch"]).txt
      ["b.patch", "a.patch"]).err = none ∧
    patch_directive_lines
        (set_new_patches (set_new_patches d6Txt ["a.patch", "b.patch"]).txt
          ["b.patch", "a.patch"]).txt
      = expDirFrom 1 ["b.patch", "a.patch"] ∧
    get_patch_fns
        (set_new_patches (set_new_patches d6Txt ["a.patch", "b.patch"]).txt
          ["b.patch", "a.patch"]).txt
      = ["b.patch", "a.patch"] := by
  have va : ValidFn "a.patch" := ⟨by decide, by decide⟩
  have vb : ValidFn "b.patch" := ⟨by decide, by decide⟩
  refine c6_set_series_renumbers ["a.patch", "b.patch"]
    ["b.patch", "a.patch"] (by simp) (by simp) ?_ ?_
  · intro f hf
    simp only [List.mem_cons, List.not_mem_nil, or_false] at hf
    rcases hf with rfl | rfl
    · exact va
    · exact vb
  · intro f hf
    simp only [List.mem_cons, List.not_mem_nil, or_false] at hf
    rcases hf with rfl | rfl
    · exact vb
    · exact va

/-- C5 counterexample: on the document "#\n# patches_base=1.0\n#\n" the
annotation owns a separator line on each side, but
`set_magic_comment(name, "")` removes only the annotation line and the
separator after it — the removal pattern can consume at most the single
`#` on the annotation's own line before the name, so the preceding
separator line survives and the result is "#\n", not the empty document
the claim requires. -/
theorem c5_set_empty_keeps_leading_separator :
    set_magic_comment_empty "#\n# patches_base=1.0\n#\n" "patches_base"
      = "#\n" ∧
    ("#\n" : String) ≠ "" ∧
    get_magic_comment "#\n" "patches_base" = none :=
  ⟨rfl, by decide, rfl⟩

/-- C5 amended: for any numbers of adjacent `#` separator lines before
(`k`) and after (`m`) a set `patches_base` annotation,
`set_magic_comment("patches_base", "")` removes the annotation line and
all `m` separator lines following it, leaves the `k` separator lines
before it in place, and a subsequent get returns absent. -/
theorem c5_set_empty_removes_annotation_and_following (k m : Nat) :
    set_magic_comment_empty
        (String.mk (sepHashes k ++ pbAnn ++ sepHashes m)) "patches_base"
      = String.mk (sepHashes k) ∧
    get_magic_comment (String.mk (sepHashes k)) "patches_base" = none := by
  constructor
  · unfold set_magic_comment_empty
    rw [show (String.mk (sepHashes k ++ pbAnn ++ sepHashes m)).data
      = sepHashes k ++ pbAnn ++ sepHashes m from rfl]
    rw [show ("patches_base" : String).data = pbName from rfl]
    rw [c5_scan k m]
  · exact c5_get_sep k

/-- C3: on a document whose Release tag value is "1.2.3", bumping with
index "MAJOR" computes the release value "2.2.3": only the first numeric
component is incremented and the later components are left untouched (no
cascading reset). -/
theorem c3_bump_major_no_cascade (txt : String)
    (h : get_tag txt "Release" = .ok "1.2.3") :
    bump_release_computed txt (some "MAJOR") = .ok (some "2.2.3") := by
  unfold bump_release_computed
  rw [if_neg (by decide), h]
  rfl

/-- Witness for C3 at the concrete document "Release: 1.2.3\n". -/
theorem c3_bump_major_no_cascade_witness :
    get_tag "Release: 1.2.3\n" "Release" = .ok "1.2.3" ∧
    bump_release_computed "Release: 1.2.3\n" (some "MAJOR")
      = .ok (some "2.2.3") :=
  ⟨rfl, c3_bump_major_no_cascade "Release: 1.2.3\n" rfl⟩

/-- C8: the Release value "%{release}" (written with escaped braces below)
has an empty numeric part, and bumping it with the default index fails with
the untyped Python IndexError (from `numbers[-1]` on an empty string), not
with the typed InvalidReleaseBumpIndex error. -/
theorem c8_macro_release_bump_index_error :
    release_parts "%\x7brelease\x7d" = ("", "", "%\x7brelease\x7d") ∧
    bump_release_value (release_parts "%\x7brelease\x7d") none
      = .error .pyIndexError ∧
    ∀ w, bump_release_value (release_parts "%\x7brelease\x7d") none
      ≠ .error (.invalidReleaseBumpIndex w) := by
  refine ⟨rfl, rfl, ?_⟩
  intro w
  rw [show bump_release_value (release_parts "%\x7brelease\x7d") none
    = .error .pyIndexError from rfl]
  simp

/-- C2 counterexample: a nonempty buffer equal to what was last read is
still written by `save()` — the code only skips the write for an empty
buffer, so an unedited document does cause I/O. -/
theorem c2_save_unedited_still_writes :
    (SpecBuf.mk (some "pkg.spec") "Name: x\n" "Name: x\n").txt
      = (SpecBuf.mk (some "pkg.spec") "Name: x\n" "Name: x\n").lastRead ∧
    save (SpecBuf.mk (some "pkg.spec") "Name: x\n" "Name: x\n")
      = .ok (.write "Name: x\n") ∧
    SaveOutcome.write "Name: x\n" ≠ .noWrite := by
  refine ⟨rfl, rfl, by simp⟩

/-- C2 amended: `save()` writes whenever the buffer text is nonempty and a
filename is known, regardless of whether the text was edited; an unedited
document is rewritten with exactly the bytes that were read (so the
byte-identical round-trip holds, but not the no-I/O part). -/
theorem c2_save_writes_nonempty (b : SpecBuf) (f : String)
    (hf : b.fn = some f) (ht : b.txt ≠ "") :
    save b = .ok (.write b.txt) ∧
    (b.txt = b.lastRead → save b = .ok (.write b.lastRead)) := by
  constructor
  · unfold save
    rw [if_neg ht, hf]
  · intro he
    unfold save
    rw [if_neg ht, hf, he]

/-- Witness for C2 amended at a concrete buffer. -/
theorem c2_save_writes_nonempty_witness :
    save (SpecBuf.mk (some "a.spec") "X\n" "X\n") = .ok (.write "X\n") :=
  (c2_save_writes_nonempty (SpecBuf.mk (some "a.spec") "X\n" "X\n") "a.spec"
    rfl (by simp)).1

/-! ### Subpackage discovery and the main-python-subpackage heuristic

`Spec.get_subpackages` finds all `^%package.*$` lines (MULTILINE), locates
each one's line index and the index of the first following `%description`
line, parses the subpackage name with `^%package\s+(-n\s+)?(.*)`, and
builds a dict `name ↦ (begin, end)`.  `Spec.guess_main_python_subpackage`
picks a candidate subpackage and then follows `Requires: X = V` edges
between subpackages recursively; the recursion has no visited-set and no
depth bound, so it is embedded with an explicit fuel argument: `diverged`
means the fuel ran out before the source's recursion reached a return. -/

/-- `Spec.get_name`: `get_tag('Name', expand_macros=True)`.  Macro
expansion calls out to rpm only when the tag value contains a macro
(`has_macros`); on the documents studied here the value is macro-free and
the expansion step is the identity, so the embedding is `get_tag`. -/
def get_name (txt : String) : Except SpecErr String :=
  get_tag txt "Name"

/-- `txt_list.index(x)` offset by the drop already applied: index of the
first element equal to `x`, or `none` for Python's `ValueError`. -/
def findEq (x : List Char) : List (List Char) → Option Nat
  | [] => none
  | l :: ls => if l = x then some 0 else (findEq x ls).map (· + 1)

/-- First line matching `re.match('%description', line)`, i.e. the first
line starting with `%description`. -/
def findDesc : List (List Char) → Option (List Char)
  | [] => none
  | l :: ls =>
    if "%description".data.isPrefixOf l then some l else findDesc ls

/-- `re.search(r'^%package\s+(-n\s+)?(.*)', subpkg)` on a single line:
after `%package` the greedy `\s+` needs at least one whitespace and takes
the maximal run; the optional group matches only if `-n` plus at least one
further whitespace follows (its inner `\s+` again maximal); `(.*)` is the
rest.  Returns `(group 1 matched?, group 2)`, `none` when the whole search
fails (the source then dies with `AttributeError` on `m.group(1)`). -/
def pkgNameParse (line : List Char) : Option (Bool × List Char) :=
  if "%package".data.isPrefixOf line then
    match line.drop 8 with
    | [] => none
    | c :: cs =>
      if c.isWhitespace then
        let r1 := (c :: cs).dropWhile Char.isWhitespace
        if "-n".data.isPrefixOf r1 then
          match r1.drop 2 with
          | [] => some (false, r1)
          | d :: ds =>
            if d.isWhitespace then
              some (true, (d :: ds).dropWhile Char.isWhitespace)
            else some (false, r1)
        else some (false, r1)
      else none
  else none

/-- Python dict assignment `d[k] = v`: overwrite in place, preserving the
insertion order, else append. -/
def dictInsert (k : String) (v : Nat × Option Nat) :
    List (String × Nat × Option Nat) → List (String × Nat × Option Nat)
  | [] => [(k, v)]
  | (k', v') :: rest =>
    if k' = k then (k, v) :: rest else (k', v') :: dictInsert k v rest

/-- The loop body of `get_subpackages` over the matched `%package` lines:
`prevEnd` carries `end_of_subpkg` across iterations (`none` is its initial
`''` value, which later makes `end_index + 1` raise `TypeError`). -/
def subpkgsGo (txtList : List (List Char)) (mainName : List Char) :
    List (List Char) → Option Nat → List (String × Nat × Option Nat) →
      Except SpecErr (List (String × Nat × Option Nat))
  | [], _, acc => .ok acc
  | sp :: rest, prevEnd, acc =>
    match findEq sp txtList with
    | none => .error SpecErr.pyValueError
    | some b =>
      let eRes : Except SpecErr (Option Nat) :=
        match findDesc (txtList.drop b) with
        | none => .ok prevEnd
        | some dline =>
          match findEq dline (txtList.drop b) with
          | none => .error SpecErr.pyValueError
          | some j => .ok (some (j + b))
      match eRes with
      | .error er => .error er
      | .ok e =>
        match pkgNameParse sp with
        | none => .error SpecErr.pyAttributeError
        | some (hasN, g2) =>
          let key : String :=
            if hasN then String.mk g2
            else String.mk (mainName ++ '-' :: g2)
          subpkgsGo txtList mainName rest e (dictInsert key (b, e) acc)

/-- Embedding of `Spec.get_subpackages`: `ok none` is the source's `None`
(no `%package` line at all); otherwise the ordered dict
`name ↦ (begin index, end index)`. -/
def get_subpackages (txt : String) :
    Except SpecErr (Option (List (String × Nat × Option Nat))) :=
  let txtList := splitChar '\n' txt.data
  match get_name txt with
  | .error e => .error e
  | .ok mainName =>
    match txtList.filter (fun l => "%package".data.isPrefixOf l) with
    | [] => .ok none
    | sp :: rest =>
      (subpkgsGo txtList mainName.data (sp :: rest) none []).map some

/-- Matcher for the one-shot `re.sub(r'%{name}', name, line)`: replace the
literal text `%\x7bname\x7d` (braces are literal in the pattern). -/
def nameSubTry (name : List Char) (l : List Char) (_ : Bool) :
    Option (List Char × Nat) :=
  if "%\x7bname\x7d".data.isPrefixOf l then some (name, 7) else none

/-- `re.sub(r'%{name}', name, line)` on a single line. -/
def expandNameMacro (name line : List Char) : List Char :=
  (reSubScanCount (nameSubTry name) (fun _ => false) line false 0 0).1

/-- Attempt to match `\s+=\s+(.*)` at a suffix: at least one whitespace
(the greedy run cannot backtrack below the full run, since any shorter run
ends at a whitespace, not `=`), then `=`, then at least one whitespace,
then group 2 is the rest after the maximal run. -/
def eqTail (s : List Char) : Option (List Char) :=
  match s with
  | [] => none
  | c :: _ =>
    if c.isWhitespace then
      match s.dropWhile Char.isWhitespace with
      | '=' :: r =>
        match r with
        | [] => none
        | d :: _ =>
          if d.isWhitespace then some (r.dropWhile Char.isWhitespace)
          else none
      | _ => none
    else none

/-- The greedy `(.*)\s+=\s+(.*)` split: the longest prefix `g1` whose
suffix matches `\s+=\s+(.*)`, i.e. the rightmost admissible `=`. -/
def lastEqSplit : List Char → Option (List Char × List Char)
  | [] => none
  | c :: rest =>
    match lastEqSplit rest with
    | some (g1, g2) => some (c :: g1, g2)
    | none => (eqTail (c :: rest)).map (fun g2 => (([] : List Char), g2))

/-- `\s+(.*)\s+=\s+(.*)` after the colon: the leading greedy `\s+` first
takes the maximal whitespace run `w`; if no split exists after it, the
engine backtracks the run, which can only succeed with `g1` empty and the
`=` inside the original run (possible only when `w ≥ 2`, and then any
shorter run gives the same groups). -/
def reqSplit (t : List Char) : Option (List Char × List Char) :=
  match t with
  | [] => none
  | c :: _ =>
    if c.isWhitespace then
      match lastEqSplit (t.dropWhile Char.isWhitespace) with
      | some r => some r
      | none =>
        if 2 ≤ (t.takeWhile Char.isWhitespace).length then
          (eqTail (t.drop 1)).map (fun g2 => (([] : List Char), g2))
        else none
    else none

/-- `re.search(r'^Requires:\s+(.*)\s+=\s+(.*)', line)` on one line. -/
def reqLineParse (line : List Char) : Option (List Char × List Char) :=
  if "Requires:".data.isPrefixOf line then reqSplit (line.drop 9)
  else none

/-- `s.count('-')`. -/
def countDash (s : String) : Nat :=
  (s.data.filter (fun c => c == '-')).length

/-- The `counter` loop choosing the python subpackage with the fewest
dashes (with the source's quirk that `counter == 0` always re-selects). -/
def selectPyGo : List String → Nat → Option String → Option String
  | [], _, m => m
  | k :: rest, counter, m =>
    if counter = 0 then selectPyGo rest (countDash k) (some k)
    else if countDash k < counter then selectPyGo rest (countDash k) (some k)
    else selectPyGo rest counter m

/-- Ordered-dict key lookup. -/
def lookupKey : List (String × Nat × Option Nat) → String →
    Option (Nat × Option Nat)
  | [], _ => none
  | (k, v) :: rest, s => if k = s then some v else lookupKey rest s

/-- The inner loop over the dict keys: return the first key equal to the
`Requires` candidate that neither starts with `python-` nor with the
current main subpackage name. -/
def findKeyMatch (cand main : List Char) :
    List (String × Nat × Option Nat) → Option String
  | [] => none
  | (k, _) :: rest =>
    if (cand == k.data) && !("python-".data.isPrefixOf cand)
        && !(main.isPrefixOf cand) then some k
    else findKeyMatch cand main rest

/-- The line loop of `guess_main_python_subpackage`: expand `%{name}`,
match the `Requires:` pattern, and return the first dict key the candidate
resolves to (the recursion target), else `none`. -/
def scanReqLines (subpkgs : List (String × Nat × Option Nat))
    (name main : List Char) : List (List Char) → Option String
  | [] => none
  | line :: rest =>
    match reqLineParse (expandNameMacro name line) with
    | none => scanReqLines subpkgs name main rest
    | some (g1, _) =>
      match findKeyMatch g1 main subpkgs with
      | some k => some k
      | none => scanReqLines subpkgs name main rest

/-- Outcome of the fueled `guess_main_python_subpackage`: `diverged` when
the fuel ran out before the source's recursion returned. -/
inductive GuessOut where
  | diverged
  | done (r : Option String)
  | err (e : SpecErr)
  deriving Repr, DecidableEq

/-- One level of `guess_main_python_subpackage` per unit of fuel, with the
subpackage dict precomputed (the source caches it in
`self._contains_subpkg`, so every recursive call sees the same dict).
`mainArg` is the `main_py_subpkg` parameter; when `none`, the python-
prefixed key with the fewest dashes is selected; a failed dict lookup
(`KeyError`) falls back to the first key; an `end` index still at its
initial `''` raises `TypeError` at `end_index + 1`. -/
def guessGo (txtList : List (List Char)) (name : List Char)
    (subpkgs : List (String × Nat × Option Nat)) :
    Nat → Option String → GuessOut
  | 0, _ => GuessOut.diverged
  | fuel + 1, mainArg =>
    let main0 : Option String :=
      match mainArg with
      | some m => some m
      | none =>
        selectPyGo ((subpkgs.map Prod.fst).filter
          (fun k => "python".data.isPrefixOf k.data)) 0 none
    let resolved : Except SpecErr (String × Nat × Option Nat) :=
      match main0 with
      | some m =>
        match lookupKey subpkgs m with
        | some v => .ok (m, v)
        | none =>
          match subpkgs with
          | [] => .error SpecErr.pyIndexError
          | (k, v) :: _ => .ok (k, v)
      | none =>
        match subpkgs with
        | [] => .error SpecErr.pyIndexError
        | (k, v) :: _ => .ok (k, v)
    match resolved with
    | .error e => GuessOut.err e
    | .ok (m, st, enOpt) =>
      match enOpt with
      | none => GuessOut.err SpecErr.pyTypeError
      | some en =>
        match scanReqLines subpkgs name m.data
            ((txtList.drop st).take (en + 1 - st)) with
        | some key => guessGo txtList name subpkgs fuel (some key)
        | none => GuessOut.done (some m)

/-- Embedding of the default call
`guess_main_python_subpackage(main_py_subpkg=None)` with explicit fuel:
a `None` subpackage dict makes the candidate comprehension raise
`TypeError`, which the source catches and turns into `return None`. -/
def guess_main_python_subpackage (txt : String) (fuel : Nat) : GuessOut :=
  match get_subpackages txt with
  | .error e => GuessOut.err e
  | .ok none => GuessOut.done none
  | .ok (some subpkgs) =>
    match get_name txt with
    | .error e => GuessOut.err e
    | .ok name => guessGo (splitChar '\n' txt.data) name.data subpkgs fuel none

/-- A document whose two subpackages require each other. -/
def d4Txt : String :=
  "Name: foo\n%package -n A\nRequires: B = 1.0\n%description -n A\n%package -n B\nRequires: A = 1.0\n%description -n B\n"

/-- The line list of `d4Txt`. -/
def d4List : List (List Char) := splitChar '\n' d4Txt.data

/-- The subpackage dict of `d4Txt`: A spans lines 1–3, B lines 4–6. -/
def d4Subpkgs : List (String × Nat × Option Nat) :=
  [("A", 1, some 3), ("B", 4, some 6)]

theorem guessGo_d4_stepA (fuel : Nat) :
    guessGo d4List "foo".data d4Subpkgs (fuel + 1) (some "A")
      = guessGo d4List "foo".data d4Subpkgs fuel (some "B") := rfl

theorem guessGo_d4_stepB (fuel : Nat) :
    guessGo d4List "foo".data d4Subpkgs (fuel + 1) (some "B")
      = guessGo d4List "foo".data d4Subpkgs fuel (some "A") := rfl

theorem guess_d4_unfold (fuel : Nat) :
    guess_main_python_subpackage d4Txt (fuel + 1)
      = guessGo d4List "foo".data d4Subpkgs fuel (some "B") := rfl

theorem guessGo_d4_cycle (fuel : Nat) :
    guessGo d4List "foo".data d4Subpkgs fuel (some "A") = GuessOut.diverged ∧
    guessGo d4List "foo".data d4Subpkgs fuel (some "B") = GuessOut.diverged := by
  induction fuel with
  | zero => exact ⟨rfl, rfl⟩
  | succ n ih =>
    exact ⟨(guessGo_d4_stepA n).trans ih.2, (guessGo_d4_stepB n).trans ih.1⟩

/-- C4: the claim says the `Requires`-following recursion of
`guess_main_python_subpackage` is bounded on every document, cyclic
relations included.  It is not: on `d4Txt`, whose subpackages A and B
require each other, the source recurses A → B → A forever — for every
fuel the fueled embedding runs out of fuel instead of returning, so no
recursion depth suffices.  This is the unbounded recursion the source's
missing visited-set allows: a genuine non-termination bug. -/
theorem c4_guess_main_subpackage_diverges :
    ∀ fuel : Nat,
      guess_main_python_subpackage d4Txt fuel = GuessOut.diverged := by
  intro fuel
  cases fuel with
  | zero => rfl
  | succ n => exact (guess_d4_unfold n).trans (guessGo_d4_cycle n).2

/-! ### Dependency anchors: `find_last_dependency`, `insert_dependency_after`,
`add_python_requires`

`find_last_dependency` scans a line range for `dep_type:` lines, skipping
lines while inside `%if`/`%endif` (the `excluded` flag and a nesting
counter; an unbalanced `%endif` drives the counter negative and leaves the
flag set).  `add_python_requires` derives the search range from the
subpackage dict, tries `Requires`, `BuildRequires`, `BuildArch` in order,
and inserts after the first truthy anchor index — `if last_dep:` treats
index 0 like "not found".  `insert_dependency_after` rewrites a `python-`
dependency to `python<major>-` and copies the whitespace following the
anchor line's last colon. -/

/-- The scanning loop of `find_last_dependency`: `excluded`/`nested` are
the conditional-block state, `last` the last anchor index so far, `i` the
index of the current line within the range. -/
def fldGo (depc : List Char) : List (List Char) → Bool → Int → Option Nat →
    Nat → Option Nat
  | [], _, _, last, _ => last
  | line :: rest, excl, nested, last, i =>
    if (depc ++ [':']).isPrefixOf line && !excl then
      fldGo depc rest excl nested (some i) (i + 1)
    else if "%if".data.isPrefixOf line then
      fldGo depc rest true (nested + 1) last (i + 1)
    else if "%endif".data.isPrefixOf line then
      fldGo depc rest (if nested - 1 = 0 then false else true) (nested - 1)
        last (i + 1)
    else fldGo depc rest excl nested last (i + 1)

/-- `txt_list[starting:ending+1]`: the slice when both bounds are ints;
when either is still `''` the `TypeError` is caught and the whole list is
used. -/
def regionSlice (txtList : List (List Char)) (starting ending : Option Nat) :
    List (List Char) :=
  match starting, ending with
  | some s, some e => (txtList.drop s).take (e + 1 - s)
  | _, _ => txtList

/-- Embedding of `Spec.find_last_dependency`: last in-range non-excluded
`dep_type:` line index, made absolute by adding `starting_index` (the
final `try` returns the relative index unchanged when `starting_index` is
`''` or when no anchor was found). -/
def find_last_dependency (txt : String) (depType : String)
    (starting ending : Option Nat) : Option Nat :=
  let txtList := splitChar '\n' txt.data
  let last := fldGo depType.data (regionSlice txtList starting ending)
    false 0 none 0
  match starting, last with
  | some s, some l => some (s + l)
  | _, _ => last

/-- `py_version.split('.')[0]`. -/
def pyMajor (pyVersion : String) : List Char :=
  pyVersion.data.takeWhile (fun c => c != '.')

/-- `re.sub(r'^python-(.*)$', r'python<major>-\g<1>', dep)` (no MULTILINE):
`^` anchors at the very start, `(.*)` cannot cross a newline, and `$`
matches only at the end or before a single final newline, so a `python-`
name is rewritten when the rest has no newline (the final newline, if any,
survives the zero-width `$`); any other name is left alone. -/
def pyDepSub (major : List Char) (dep : List Char) : List Char :=
  if "python-".data.isPrefixOf dep then
    let rest := dep.drop 7
    match rest.dropWhile (fun c => c != '\n') with
    | [] => "python".data ++ major ++ '-'
        :: rest.takeWhile (fun c => c != '\n')
    | ['\n'] => "python".data ++ major ++ '-'
        :: rest.takeWhile (fun c => c != '\n') ++ ['\n']
    | _ => dep
  else dep

/-- The characters after the last `:` of a line, `none` when the line has
no colon (the greedy `^(.*):` backtracks to the rightmost colon). -/
def lastColonSplit : List Char → Option (List Char)
  | [] => none
  | c :: rest =>
    match lastColonSplit rest with
    | some r => some r
    | none => if c = ':' then some rest else none

/-- Embedding of `Spec.insert_dependency_after`: `none` is the source's
`return False` on `IndexError`, `some` the new document text. -/
def insert_dependency_after (txt dep : String) (linePos : Int)
    (depType pyVersion : String) : Option String :=
  let txtList := splitChar '\n' txt.data
  match pyListGetI txtList linePos with
  | none => none
  | some lastDep =>
    let dep2 := pyDepSub (pyMajor pyVersion) dep.data
    let spaces :=
      match lastColonSplit lastDep with
      | some r => r.takeWhile Char.isWhitespace
      | none => [' ']
    some (String.mk (joinChar '\n'
      (pyListInsertI txtList (linePos + 1)
        (depType.data ++ ':' :: (spaces ++ dep2)))))

/-- Outcome of `add_python_requires`: `changed` is `return True` with the
new text, `unchanged` is `return False`, `err` an uncaught exception
(`CouldNotAddPythonRequires` included). -/
inductive AddReqOut where
  | changed (txt : String)
  | unchanged
  | err (e : SpecErr)
  deriving Repr, DecidableEq

/-- The search-range derivation of `add_python_requires`: a found
subpackage gives its own `(begin, end)` range (`end` may still be the
initial `''`); `KeyError` (name absent, `None` included) gives
`(0, first subpackage's begin)`; no subpackage dict at all (`TypeError`)
gives `('', '')`, i.e. the whole file. -/
def addReqRegion (txt : String) (subpkgName : Option String) :
    Except SpecErr (Option Nat × Option Nat) :=
  match get_subpackages txt with
  | .error e => .error e
  | .ok none => .ok (none, none)
  | .ok (some subs) =>
    match subpkgName.bind (lookupKey subs) with
    | some (b, e) => .ok (some b, e)
    | none =>
      match subs with
      | [] => .error SpecErr.pyIndexError
      | (_, b0, _) :: _ => .ok (some 0, some b0)

/-- `insert_dependency_after(requires, i, 'Requires')` as an
`AddReqOut`. -/
def insOut (txt requires : String) (i : Nat) : AddReqOut :=
  match insert_dependency_after txt requires (Int.ofNat i) "Requires" "3.6"
      with
  | some t => AddReqOut.changed t
  | none => AddReqOut.unchanged

/-- The `for dep_type in ['Requires', 'BuildRequires', 'BuildArch']` loop:
insert after the first *truthy* anchor index (`if last_dep:` discards
`None` and `0` alike); otherwise raise `CouldNotAddPythonRequires`. -/
def tryDeps (txt requires : String) (starting ending : Option Nat) :
    List String → AddReqOut
  | [] => AddReqOut.err SpecErr.couldNotAddPythonRequires
  | d :: rest =>
    match find_last_dependency txt d starting ending with
    | some (n + 1) => insOut txt requires (n + 1)
    | _ => tryDeps txt requires starting ending rest

/-- Embedding of `Spec.add_python_requires`. -/
def add_python_requires (txt requires : String)
    (subpkgName : Option String) : AddReqOut :=
  match addReqRegion txt subpkgName with
  | .error e => AddReqOut.err e
  | .ok (starting, ending) =>
    tryDeps txt requires starting ending
      ["Requires", "BuildRequires", "BuildArch"]

/-- Last element of a list, as an `Option`. -/
def lastOpt {α : Type} : List α → Option α
  | [] => none
  | [a] => some a
  | _ :: b :: rest => lastOpt (b :: rest)

/-- Spec-side description of the anchor lines: the list of indices of
`dep:` lines outside conditional blocks, in order, computed over a line
range with the same `excluded`/`nested` state evolution as the scan. -/
def specAnchorIdxs (depc : List Char) : List (List Char) → Bool → Int →
    Nat → List Nat
  | [], _, _, _ => []
  | line :: rest, excl, nested, i =>
    if (depc ++ [':']).isPrefixOf line && !excl then
      i :: specAnchorIdxs depc rest excl nested (i + 1)
    else if "%if".data.isPrefixOf line then
      specAnchorIdxs depc rest true (nested + 1) (i + 1)
    else if "%endif".data.isPrefixOf line then
      specAnchorIdxs depc rest (if nested - 1 = 0 then false else true)
        (nested - 1) (i + 1)
    else specAnchorIdxs depc rest excl nested (i + 1)

/-- Spec-side description of `find_last_dependency`: the last of the
anchor indices of the search region, made absolute with the region
start. -/
def lastAnchorAbs (txt depType : String) (starting ending : Option Nat) :
    Option Nat :=
  let lines := regionSlice (splitChar '\n' txt.data) starting ending
  let last := lastOpt (specAnchorIdxs depType.data lines false 0 0)
  match starting, last with
  | some s, some l => some (s + l)
  | _, _ => last

/-- Python truthiness of an optional line index: `None` and `0` are both
falsy. -/
def truthyIdx : Option Nat → Option Nat
  | some (n + 1) => some (n + 1)
  | _ => none

theorem lastOpt_isSome {α : Type} :
    ∀ (a : α) (l : List α), (lastOpt (a :: l)).isSome = true := by
  intro a l
  induction l generalizing a with
  | nil => rfl
  | cons b m ih => exact ih b

theorem lastOpt_cons {α : Type} (a : α) (l : List α) :
    lastOpt (a :: l) = ((lastOpt l).getD a : α) := by
  cases l with
  | nil => rfl
  | cons b m =>
    obtain ⟨x, hx⟩ := Option.isSome_iff_exists.mp (lastOpt_isSome b m)
    show lastOpt (b :: m) = (lastOpt (b :: m)).getD a
    rw [hx]
    rfl

theorem fldGo_spec (depc : List Char) :
    ∀ (lines : List (List Char)) (excl : Bool) (nested : Int)
      (last : Option Nat) (i : Nat),
      fldGo depc lines excl nested last i
        = ((lastOpt (specAnchorIdxs depc lines excl nested i)).or last
            : Option Nat) := by
  intro lines
  induction lines with
  | nil => intro excl nested last i; rfl
  | cons line rest ih =>
    intro excl nested last i
    unfold fldGo specAnchorIdxs
    by_cases h1 : ((depc ++ [':']).isPrefixOf line && !excl) = true
    · rw [if_pos h1, if_pos h1, ih, lastOpt_cons]
      cases hl : lastOpt (specAnchorIdxs depc rest excl nested (i + 1)) with
      | none => rfl
      | some x => rfl
    · rw [if_neg h1, if_neg h1]
      by_cases h2 : ("%if".data.isPrefixOf line) = true
      · rw [if_pos h2, if_pos h2, ih]
      · rw [if_neg h2, if_neg h2]
        by_cases h3 : ("%endif".data.isPrefixOf line) = true
        · rw [if_pos h3, if_pos h3, ih]
        · rw [if_neg h3, if_neg h3, ih]

theorem fld_eq_lastAnchor (txt depType : String)
    (starting ending : Option Nat) :
    find_last_dependency txt depType starting ending
      = lastAnchorAbs txt depType starting ending := by
  unfold find_last_dependency lastAnchorAbs
  dsimp only
  rw [fldGo_spec]
  cases lastOpt (specAnchorIdxs depType.data
      (regionSlice (splitChar '\n' txt.data) starting ending) false 0 0) with
  | none => rfl
  | some l => rfl

theorem firstSome_none_iff {α β : Type} (f : α → Option β) :
    ∀ l : List α, firstSome f l = none ↔ ∀ a ∈ l, f a = none := by
  intro l
  induction l with
  | nil => simp [firstSome]
  | cons a rest ih =>
    unfold firstSome
    cases hf : f a with
    | some b => simp [hf]
    | none => simpa [hf] using ih

theorem insOut_ne_err (txt requires : String) (i : Nat) (e : SpecErr) :
    insOut txt requires i ≠ AddReqOut.err e := by
  unfold insOut
  cases insert_dependency_after txt requires (Int.ofNat i) "Requires" "3.6"
      with
  | none => simp
  | some t => simp

theorem tryDeps_spec (txt requires : String) (starting ending : Option Nat) :
    ∀ ds : List String,
      tryDeps txt requires starting ending ds
        = match firstSome (fun d =>
              truthyIdx (find_last_dependency txt d starting ending)) ds with
          | some i => insOut txt requires i
          | none => AddReqOut.err SpecErr.couldNotAddPythonRequires := by
  intro ds
  induction ds with
  | nil => rfl
  | cons d rest ih =>
    unfold tryDeps firstSome
    cases hd : find_last_dependency txt d starting ending with
    | none => simpa [truthyIdx] using ih
    | some n =>
      cases n with
      | zero => simpa [truthyIdx] using ih
      | succ m => simp [truthyIdx]

/-- C7 counterexample: the claim says `add_python_requires` fails iff no
anchor line of any kind exists in the search region.  On this document the
search region is the whole file and a `Requires:` anchor exists at line 0
— `find_last_dependency` returns it — yet `if last_dep:` treats index 0 as
"not found" and the method raises `CouldNotAddPythonRequires`. -/
theorem c7_index_zero_anchor_fails :
    addReqRegion "Requires: foo\nName: x\n" none = .ok (none, none) ∧
    find_last_dependency "Requires: foo\nName: x\n" "Requires" none none
      = some 0 ∧
    add_python_requires "Requires: foo\nName: x\n" "bar" none
      = AddReqOut.err SpecErr.couldNotAddPythonRequires :=
  ⟨rfl, rfl, rfl⟩

/-- C7 amended: with the search region `add_python_requires` derives,
(1) `find_last_dependency` returns the last non-excluded anchor index of
the region (absolute); (2) the method fails with
`CouldNotAddPythonRequires` iff for each kind — `Requires`,
`BuildRequires`, `BuildArch` — the last anchor is absent *or at absolute
index 0* (Python truthiness of the index); (3) otherwise the kinds are
tried in that priority order and the dependency is inserted right after
the first kind's truthy last anchor. -/
theorem c7_anchor_priority_and_failure (txt requires : String)
    (sub : Option String) (s e : Option Nat)
    (hr : addReqRegion txt sub = .ok (s, e)) :
    (∀ d : String,
      find_last_dependency txt d s e = lastAnchorAbs txt d s e) ∧
    (add_python_requires txt requires sub
        = AddReqOut.err SpecErr.couldNotAddPythonRequires ↔
      ∀ d ∈ ["Requires", "BuildRequires", "BuildArch"],
        truthyIdx (lastAnchorAbs txt d s e) = none) ∧
    (∀ i : Nat,
      firstSome (fun d => truthyIdx (lastAnchorAbs txt d s e))
          ["Requires", "BuildRequires", "BuildArch"] = some i →
      add_python_requires txt requires sub = insOut txt requires i) := by
  have h1 : ∀ d : String,
      find_last_dependency txt d s e = lastAnchorAbs txt d s e :=
    fun d => fld_eq_lastAnchor txt d s e
  have h2 : add_python_requires txt requires sub
      = match firstSome (fun d => truthyIdx (lastAnchorAbs txt d s e))
            ["Requires", "BuildRequires", "BuildArch"] with
        | some i => insOut txt requires i
        | none => AddReqOut.err SpecErr.couldNotAddPythonRequires := by
    unfold add_python_requires
    rw [hr]
    dsimp only
    rw [tryDeps_spec]
    simp only [h1]
  refine ⟨h1, ?_, ?_⟩
  · rw [h2]
    cases hf : firstSome (fun d => truthyIdx (lastAnchorAbs txt d s e))
        ["Requires", "BuildRequires", "BuildArch"] with
    | none =>
      constructor
      · intro _
        exact (firstSome_none_iff _ _).mp hf
      · intro _
        rfl
    | some i =>
      constructor
      · intro hc
        exact absurd hc (insOut_ne_err txt requires i _)
      · intro hall
        rw [(firstSome_none_iff _ _).mpr hall] at hf
        exact absurd hf (by simp)
  · intro i hfi
    rw [h2, hfi]

/-- Witness for C7 amended: on a document whose last `Requires:` anchor is
line 1, the insertion happens after line 1. -/
theorem c7_anchor_priority_witness :
    add_python_requires "Name: x\nRequires: a\nBuildRequires: b\n" "bar"
        none
      = insOut "Name: x\nRequires: a\nBuildRequires: b\n" "bar" 1 :=
  (c7_anchor_priority_and_failure "Name: x\nRequires: a\nBuildRequires: b\n"
    "bar" none none none rfl).2.2 1 rfl

/-- Spec-side description of the inserted line's whitespace: the
whitespace run following the *last* colon of the anchor line, a single
space when the anchor has no colon. -/
def wsAfterLastColon (line : List Char) : List Char :=
  match lastColonSplit line with
  | some r => r.takeWhile Char.isWhitespace
  | none => [' ']

/-- Spec-side description of the dependency-name rewrite: a name starting
with `python-` becomes `python<major>-rest`, any other name is kept
verbatim. -/
def pyNameRewrite (dep major : List Char) : List Char :=
  if "python-".data.isPrefixOf dep then
    "python".data ++ major ++ '-' :: dep.drop 7
  else dep

theorem pyDepSub_no_nl (major dep : List Char)
    (hd : ∀ c ∈ dep, ¬(c = '\n')) :
    pyDepSub major dep = pyNameRewrite dep major := by
  unfold pyDepSub pyNameRewrite
  by_cases hp : ("python-".data.isPrefixOf dep) = true
  · rw [if_pos hp, if_pos hp]
    have hsub : ∀ c ∈ dep.drop 7, (fun c => c != '\n') c = true := by
      intro c hc
      simpa using hd c (List.mem_of_mem_drop hc)
    have h2 : (dep.drop 7).dropWhile (fun c => c != '\n') = [] := by
      rw [List.dropWhile_eq_nil_iff]
      intro c hc
      exact hsub c hc
    dsimp only
    rw [h2, takeWhile_all _ hsub]
  · rw [if_neg hp, if_neg hp]

/-- C9 counterexample: the inserted line reuses the whitespace after the
anchor line's *last* colon, not the tag-to-value whitespace.  With an
epoch in the anchor's version (`1:2`) the last colon is inside the value
and is followed by no whitespace, so `python-bar` is inserted as
`Requires:python3-bar` with no space, although the anchor's tag colon is
followed by one space. -/
theorem c9_epoch_anchor_loses_whitespace :
    insert_dependency_after "Requires: foo >= 1:2\n%build\n" "python-bar" 0
        "Requires" "3.6"
      = some "Requires: foo >= 1:2\nRequires:python3-bar\n%build\n" ∧
    ("Requires: foo >= 1:2".data.drop 9).takeWhile Char.isWhitespace
      = " ".data ∧
    wsAfterLastColon "Requires: foo >= 1:2".data = [] :=
  ⟨rfl, rfl, rfl⟩

/-- C9 amended: when the anchor line exists and the dependency name
contains no newline, `insert_dependency_after` inserts right after the
anchor the line `dep_type` + `:` + (the whitespace run following the
anchor's last colon, one space if it has none) + the rewritten name,
where a name starting with `python-` becomes `python<major>-rest`
(`major` = `py_version` up to the first dot, so `python-foo` becomes
`python3-foo` for the default `3.6`) and any other name is verbatim. -/
theorem c9_inserted_line_rewrite_and_whitespace (txt dep : String)
    (pos : Int) (depType pyVersion : String) (anchor : List Char)
    (ha : pyListGetI (splitChar '\n' txt.data) pos = some anchor)
    (hd : ∀ c ∈ dep.data, ¬(c = '\n')) :
    insert_dependency_after txt dep pos depType pyVersion
      = some (String.mk (joinChar '\n'
          (pyListInsertI (splitChar '\n' txt.data) (pos + 1)
            (depType.data ++ ':'
              :: (wsAfterLastColon anchor
                  ++ pyNameRewrite dep.data (pyMajor pyVersion)))))) := by
  unfold insert_dependency_after
  dsimp only
  rw [ha]
  dsimp only
  rw [pyDepSub_no_nl _ _ hd]
  rfl

/-- Witness for C9 amended: `python-foo` inserted after `Requires: a`
with the default python version. -/
theorem c9_inserted_line_witness :
    insert_dependency_after "Requires: a\n" "python-foo" 0 "Requires" "3.6"
      = some (String.mk (joinChar '\n'
          (pyListInsertI (splitChar '\n' "Requires: a\n".data) (0 + 1)
            ("Requires".data ++ ':'
              :: (wsAfterLastColon "Requires: a".data
                  ++ pyNameRewrite "python-foo".data (pyMajor "3.6")))))) :=
  c9_inserted_line_rewrite_and_whitespace "Requires: a\n" "python-foo" 0
    "Requires" "3.6" "Requires: a".data rfl (by decide)
